import Mathlib

/-!
Verification of the wslattr EA/attribute codecs.

Byte buffers are modelled as `List Nat` (each element one byte).  Multi-byte
fields are little-endian, as on the machines the tool targets.  Machine-integer
truncation (`as u8`, `as u16`, u32 arithmetic) is written with explicit `% 2^w`.
Rust `assert!` failures and `panic` are modelled as `Option.none` results.
-/

namespace Wslattr

/-- Read one byte of a buffer; out-of-range reads yield 0 (all modelled reads
are bound-checked before use, mirroring the asserts in the source). -/
def byteAt (buf : List Nat) (i : Nat) : Nat := buf.getD i 0

/-- Little-endian 16-bit read at offset `i`. -/
def le16At (buf : List Nat) (i : Nat) : Nat :=
  byteAt buf i + 256 * byteAt buf (i + 1)

/-- Little-endian 32-bit read at offset `i`. -/
def le32At (buf : List Nat) (i : Nat) : Nat :=
  byteAt buf i + 256 * byteAt buf (i + 1) + 65536 * byteAt buf (i + 2) +
    16777216 * byteAt buf (i + 3)

/-- Little-endian 64-bit read at offset `i`. -/
def le64At (buf : List Nat) (i : Nat) : Nat :=
  le32At buf i + 4294967296 * le32At buf (i + 4)

/-- Contiguous slice of `len` bytes starting at `pos`. -/
def extract (buf : List Nat) (pos len : Nat) : List Nat := (buf.drop pos).take len

/-- Little-endian 16-bit serialization. -/
def le16 (n : Nat) : List Nat := [n % 256, n / 256 % 256]

/-- Little-endian 32-bit serialization. -/
def le32 (n : Nat) : List Nat :=
  [n % 256, n / 256 % 256, n / 65536 % 256, n / 16777216 % 256]

/-- Little-endian 64-bit serialization. -/
def le64 (n : Nat) : List Nat := le32 (n % 4294967296) ++ le32 (n / 4294967296)

/-- Overwrite `d.length` bytes of `buf` starting at `pos`
(model of `copy_nonoverlapping` into an in-bounds region). -/
def writeAt (buf : List Nat) (pos : Nat) (d : List Nat) : List Nat :=
  buf.take pos ++ d ++ buf.drop (pos + d.length)

/-! ### Basic byte-level lemmas -/

theorem byteAt_append_right (A B : List Nat) (k : Nat) :
    byteAt (A ++ B) (A.length + k) = byteAt B k := by
  unfold byteAt
  rw [List.getD_append_right]
  · congr 1
    omega
  · omega

theorem byteAt_append_left (A B : List Nat) (k : Nat) (h : k < A.length) :
    byteAt (A ++ B) k = byteAt A k := by
  unfold byteAt
  rw [List.getD_append]
  omega

theorem byteAt_cons_succ (a : Nat) (l : List Nat) (i : Nat) :
    byteAt (a :: l) (i + 1) = byteAt l i := by
  simp [byteAt]

theorem byteAt_cons_zero (a : Nat) (l : List Nat) :
    byteAt (a :: l) 0 = a := by
  simp [byteAt]

theorem le16At_append_right (A B : List Nat) (k : Nat) :
    le16At (A ++ B) (A.length + k) = le16At B k := by
  simp only [le16At, Nat.add_assoc, byteAt_append_right]

theorem le32At_append_right (A B : List Nat) (k : Nat) :
    le32At (A ++ B) (A.length + k) = le32At B k := by
  simp only [le32At, Nat.add_assoc, byteAt_append_right]

theorem le64At_append_right (A B : List Nat) (k : Nat) :
    le64At (A ++ B) (A.length + k) = le64At B k := by
  simp only [le64At, Nat.add_assoc, le32At_append_right]

theorem le16_length (n : Nat) : (le16 n).length = 2 := rfl

theorem le32_length (n : Nat) : (le32 n).length = 4 := rfl

theorem le64_length (n : Nat) : (le64 n).length = 8 := by
  simp [le64, le32]

theorem le16_lt (n : Nat) : ∀ b ∈ le16 n, b < 256 := by
  simp only [le16, List.mem_cons, List.not_mem_nil, or_false]
  rintro b (rfl | rfl) <;> omega

theorem le32_lt (n : Nat) : ∀ b ∈ le32 n, b < 256 := by
  simp only [le32, List.mem_cons, List.not_mem_nil, or_false]
  rintro b (rfl | rfl | rfl | rfl) <;> omega

theorem le16At_le16 (n : Nat) (rest : List Nat) :
    le16At (le16 n ++ rest) 0 = n % 65536 := by
  simp only [le16At, le16, List.cons_append, byteAt_cons_zero, byteAt_cons_succ,
    List.nil_append]
  have h1 : byteAt (n / 256 % 256 :: rest) 0 = n / 256 % 256 := byteAt_cons_zero _ _
  omega

theorem le32At_le32 (n : Nat) (rest : List Nat) :
    le32At (le32 n ++ rest) 0 = n % 4294967296 := by
  simp only [le32At, le32, List.cons_append, List.nil_append]
  have h0 : byteAt (n % 256 :: n / 256 % 256 :: n / 65536 % 256 :: n / 16777216 % 256 :: rest) 0
      = n % 256 := byteAt_cons_zero _ _
  have h1 : byteAt (n % 256 :: n / 256 % 256 :: n / 65536 % 256 :: n / 16777216 % 256 :: rest) 1
      = n / 256 % 256 := rfl
  have h2 : byteAt (n % 256 :: n / 256 % 256 :: n / 65536 % 256 :: n / 16777216 % 256 :: rest) 2
      = n / 65536 % 256 := rfl
  have h3 : byteAt (n % 256 :: n / 256 % 256 :: n / 65536 % 256 :: n / 16777216 % 256 :: rest) 3
      = n / 16777216 % 256 := rfl
  rw [h0, h1, h2, h3]
  omega

theorem le32At_append_len (A B : List Nat) :
    le32At (A ++ B) A.length = le32At B 0 := by
  simpa using le32At_append_right A B 0

theorem le64At_le64 (n : Nat) (rest : List Nat) :
    le64At (le64 n ++ rest) 0 = n % 18446744073709551616 := by
  simp only [le64At, le64, List.append_assoc, Nat.zero_add]
  rw [le32At_le32]
  have h4 : (4 : Nat) = (le32 (n % 4294967296)).length := rfl
  rw [h4, le32At_append_len, le32At_le32]
  omega

theorem extract_append_right (A B : List Nat) (k len : Nat) :
    extract (A ++ B) (A.length + k) len = extract B k len := by
  unfold extract
  congr 1
  rw [List.drop_append_eq_append_drop]
  simp [List.drop_eq_nil_of_le (Nat.le_add_right A.length k)]

theorem extract_exact (A B : List Nat) :
    extract (A ++ B) 0 A.length = A := by
  simp [extract, List.take_append]

/-! ### EA chain codec (`ea_parse.rs`)

One OS extended-attribute entry (`EaEntry` in the source; `flags: u8`,
`name`/`value` byte strings). -/

structure EaEntry where
  flags : Nat
  name : List Nat
  value : List Nat
deriving Repr, DecidableEq

/-- `EA_BASE_SIZE_RAW` in the source: u32 next-offset + u8 flags + u8 name
length + u16 value length + the NUL byte after the name. -/
def EA_BASE_SIZE_RAW : Nat := 9

/-- Records are 4-byte aligned (`EA_ALIGN`). -/
def EA_ALIGN : Nat := 4

/-- `ea_entry_size_inner`: full aligned record size from the declared name and
value lengths. -/
def ea_entry_size_inner (name_len value_len : Nat) : Nat :=
  (EA_BASE_SIZE_RAW + name_len + value_len + EA_ALIGN - 1) / EA_ALIGN * EA_ALIGN

theorem ea_entry_size_inner_ge (nl vl : Nat) :
    EA_BASE_SIZE_RAW + nl + vl ≤ ea_entry_size_inner nl vl := by
  unfold ea_entry_size_inner EA_BASE_SIZE_RAW EA_ALIGN
  omega

theorem ea_entry_size_inner_ge_twelve (nl vl : Nat) :
    12 ≤ ea_entry_size_inner nl vl := by
  unfold ea_entry_size_inner EA_BASE_SIZE_RAW EA_ALIGN
  omega

/-- The body of `parse_ea_to_iter`'s `next`, iterated to exhaustion.  The
source walks a pointer `ea_ptr` through the buffer; `pos` is its offset.  The
two `assert!`s (header within the buffer, full record within the buffer) are
modelled as `none` results.  Each step advances `pos` by the non-zero declared
next-offset, so `buf.length - pos` strictly decreases; `fuel` makes that
recursion structural and `parse_ea` supplies a fuel that can never run out. -/
def parseEaLoop : Nat → List Nat → Nat → Option (List EaEntry)
  | 0, _, _ => none
  | fuel + 1, buf, pos =>
    if pos + 12 ≤ buf.length then
      let nameLen := byteAt buf (pos + 5)
      let valueLen := le16At buf (pos + 6)
      if pos + ea_entry_size_inner nameLen valueLen ≤ buf.length then
        let e : EaEntry :=
          { flags := byteAt buf (pos + 4)
            name := extract buf (pos + 8) nameLen
            value := extract buf (pos + 8 + nameLen + 1) valueLen }
        if le32At buf pos = 0 then some [e]
        else
          match parseEaLoop fuel buf (pos + le32At buf pos) with
          | none => none
          | some rest => some (e :: rest)
      else none
    else none

/-- `parse_ea` / `parse_ea_to_iter` collected into a list; `none` models an
assert failure (malformed chain) while iterating. -/
def parse_ea (buf : List Nat) : Option (List EaEntry) :=
  parseEaLoop (buf.length + 1) buf 0

/-- Companion walker for the safety claim: `true` iff the walk of the declared
chain reaches a record whose fixed header or whose computed end
(`ea_entry_size_inner`) exceeds the buffer bound. -/
def chainBadLoop : Nat → List Nat → Nat → Bool
  | 0, _, _ => true
  | fuel + 1, buf, pos =>
    if pos + 12 ≤ buf.length then
      let nameLen := byteAt buf (pos + 5)
      let valueLen := le16At buf (pos + 6)
      if pos + ea_entry_size_inner nameLen valueLen ≤ buf.length then
        if le32At buf pos = 0 then false
        else chainBadLoop fuel buf (pos + le32At buf pos)
      else true
    else true

def chainBad (buf : List Nat) : Bool := chainBadLoop (buf.length + 1) buf 0

/-- Serialization state of `EaOut` (`buff`, `last_ea_info`, `count`). -/
structure EaOut where
  buffer : List Nat
  last_ea_info : Option (Nat × Nat)
  count : Nat
deriving Repr, DecidableEq

instance : Inhabited EaOut := ⟨⟨[], none, 0⟩⟩

/-- `EaOut::add_entry`: append a zero-filled region of the new record's
aligned size, patch the previous record's next-offset to the previous record's
size, then write the new record's header, name and value into the region.
`as u8` / `as u16` casts of the lengths are `% 256` / `% 65536`. -/
def EaOut.add_entry (out : EaOut) (e : EaEntry) : EaOut :=
  let nl := e.name.length % 256
  let vl := e.value.length % 65536
  let this_size := ea_entry_size_inner nl vl
  let buf0 := out.buffer ++ List.replicate this_size 0
  let patched := match out.last_ea_info with
    | some info => writeAt buf0 info.1 (le32 info.2)
    | none => buf0
  let this_index := match out.last_ea_info with
    | some info => info.1 + info.2
    | none => 0
  let buf1 := writeAt patched this_index (le32 0 ++ [0, nl] ++ le16 vl)
  let buf2 := writeAt buf1 (this_index + 8) (e.name.take nl)
  let buf3 := writeAt buf2 (this_index + 8 + nl + 1) (e.value.take vl)
  { buffer := buf3
    last_ea_info := some (this_index, this_size)
    count := out.count + 1 }

/-- `EaOut::add` (flags are always written as 0 by `add_entry`). -/
def EaOut.add (out : EaOut) (name value : List Nat) : EaOut :=
  out.add_entry { flags := 0, name := name, value := value }

/-- Buffer produced by adding a list of entries to a fresh `EaOut` — the
argument of the single `write_ea` call. -/
def encodeEa (es : List EaEntry) : List Nat :=
  (es.foldl EaOut.add_entry default).buffer

/-- Functional form of one encoded record with a given next-offset. -/
def eaRecord (nextOff : Nat) (e : EaEntry) : List Nat :=
  let nl := e.name.length % 256
  let vl := e.value.length % 65536
  le32 nextOff ++ [0, nl] ++ le16 vl ++ e.name.take nl ++ [0] ++ e.value.take vl ++
    List.replicate (ea_entry_size_inner nl vl - (EA_BASE_SIZE_RAW + nl + vl)) 0

/-- Aligned on-disk size of one entry's record (`entry.size()` in the source). -/
def eaSizeOf (e : EaEntry) : Nat :=
  ea_entry_size_inner (e.name.length % 256) (e.value.length % 65536)

/-- Lengths that survive the `as u8` / `as u16` casts of `add_entry`. -/
def WFe (e : EaEntry) : Prop :=
  e.name.length ≤ 255 ∧ e.value.length ≤ 65535

instance (e : EaEntry) : Decidable (WFe e) := by unfold WFe; infer_instance

/-- `add_entry` always writes `Flags = 0`, so re-encoding normalizes flags. -/
def clearFlags (e : EaEntry) : EaEntry := { e with flags := 0 }

theorem eaRecord_length (nextOff : Nat) (e : EaEntry) :
    (eaRecord nextOff e).length =
      ea_entry_size_inner (e.name.length % 256) (e.value.length % 65536) := by
  have h := ea_entry_size_inner_ge (e.name.length % 256) (e.value.length % 65536)
  simp only [eaRecord, List.length_append, le32_length, le16_length,
    List.length_cons, List.length_take, List.length_replicate, List.length_nil,
    List.length_singleton]
  have h1 : min (e.name.length % 256) e.name.length = e.name.length % 256 :=
    Nat.min_eq_left (Nat.mod_le _ _)
  have h2 : min (e.value.length % 65536) e.value.length = e.value.length % 65536 :=
    Nat.min_eq_left (Nat.mod_le _ _)
  rw [h1, h2]
  unfold EA_BASE_SIZE_RAW at h ⊢
  omega

theorem eaRecord_length' (nextOff : Nat) (e : EaEntry) :
    (eaRecord nextOff e).length = eaSizeOf e := eaRecord_length nextOff e

/-! ### `writeAt` surgery lemmas -/

theorem writeAt_append_right (X R : List Nat) (k : Nat) (d : List Nat) :
    writeAt (X ++ R) (X.length + k) d = X ++ writeAt R k d := by
  unfold writeAt
  rw [List.take_append_eq_append_take, List.drop_append_eq_append_drop]
  have h1 : List.take (X.length + k) X = X := List.take_of_length_le (by omega)
  have h2 : List.drop (X.length + k + d.length) X = [] :=
    List.drop_eq_nil_of_le (by omega)
  rw [h1, h2, List.nil_append, Nat.add_sub_cancel_left, Nat.add_assoc,
    Nat.add_sub_cancel_left]
  simp [List.append_assoc]

theorem writeAt_append_right' (X R : List Nat) (p k : Nat) (d : List Nat)
    (h : p = X.length + k) :
    writeAt (X ++ R) p d = X ++ writeAt R k d := by
  rw [h, writeAt_append_right]

theorem writeAt_zero (R d : List Nat) :
    writeAt R 0 d = d ++ R.drop d.length := by
  simp [writeAt]

/-- The three `copy`s of `add_entry` into the freshly zero-extended region
produce exactly the functional record with next-offset 0. -/
theorem writes_record (e : EaEntry) :
    writeAt (writeAt (writeAt (List.replicate (eaSizeOf e) 0) 0
        (le32 0 ++ [0, e.name.length % 256] ++ le16 (e.value.length % 65536)))
      8 (e.name.take (e.name.length % 256)))
      (8 + e.name.length % 256 + 1) (e.value.take (e.value.length % 65536))
    = eaRecord 0 e := by
  set nl := e.name.length % 256 with hnl
  set vl := e.value.length % 65536 with hvl
  have hsz : EA_BASE_SIZE_RAW + nl + vl ≤ eaSizeOf e := ea_entry_size_inner_ge nl vl
  have hnm : (e.name.take nl).length = nl :=
    List.length_take_of_le (Nat.mod_le _ _)
  have hvb : (e.value.take vl).length = vl :=
    List.length_take_of_le (Nat.mod_le _ _)
  have hhdr : (le32 0 ++ [0, nl] ++ le16 vl).length = 8 := rfl
  -- first write: the 8-byte header replaces the first 8 zeroes
  rw [writeAt_zero, hhdr, List.drop_replicate]
  -- second write: the name bytes land right after the header
  rw [writeAt_append_right' _ _ 8 0 _ (by rw [hhdr]), writeAt_zero, hnm,
    List.drop_replicate]
  -- third write: the value bytes land after the name and its NUL byte
  rw [← List.append_assoc,
    writeAt_append_right' _ _ (8 + nl + 1) 1 _
      (by simp only [List.length_append, hhdr, hnm])]
  unfold writeAt
  rw [hvb, List.take_replicate, List.drop_replicate]
  have hmin : min 1 (eaSizeOf e - 8 - nl) = 1 := by
    unfold EA_BASE_SIZE_RAW at hsz
    omega
  rw [hmin]
  simp only [eaRecord, ← hnl, ← hvl, List.append_assoc, List.replicate_one,
    List.cons_append, List.nil_append]
  have hS : ea_entry_size_inner nl vl = eaSizeOf e := rfl
  have hcount : eaSizeOf e - 8 - nl - (1 + vl)
      = ea_entry_size_inner nl vl - (EA_BASE_SIZE_RAW + nl + vl) := by
    rw [hS]
    unfold EA_BASE_SIZE_RAW
    omega
  rw [hcount]

/-- Patching the next-offset field rewrites only the first four bytes. -/
theorem eaRecord_patch (m n : Nat) (e : EaEntry) (Y : List Nat) :
    writeAt (eaRecord n e ++ Y) 0 (le32 m) = eaRecord m e ++ Y := by
  have h4 : (le32 m).length = 4 := rfl
  rw [writeAt_zero, h4]
  have hrec : eaRecord n e ++ Y = le32 n ++
      (([0, e.name.length % 256] ++ le16 (e.value.length % 65536) ++
        e.name.take (e.name.length % 256) ++ [0] ++
        e.value.take (e.value.length % 65536) ++
        List.replicate (ea_entry_size_inner (e.name.length % 256)
          (e.value.length % 65536) -
          (EA_BASE_SIZE_RAW + e.name.length % 256 + e.value.length % 65536)) 0) ++ Y) := by
    simp [eaRecord, List.append_assoc]
  rw [hrec, List.drop_left' (by rfl)]
  simp [eaRecord, List.append_assoc]

/-- First `add_entry` on a fresh `EaOut`: the record lands at offset 0 with
next-offset 0, and `last_ea_info` records its position and size. -/
theorem add_entry_first (e : EaEntry) (c : Nat) :
    EaOut.add_entry ⟨[], none, c⟩ e = ⟨eaRecord 0 e, some (0, eaSizeOf e), c + 1⟩ := by
  have hsz : ea_entry_size_inner (e.name.length % 256) (e.value.length % 65536)
      = eaSizeOf e := rfl
  unfold EaOut.add_entry
  simp only [hsz, List.nil_append]
  congr 1
  rw [Nat.zero_add]
  exact writes_record e

/-- Adding to a state whose buffer ends in the still-unpatched last record
(the invariant `EaOut` maintains) patches that record's next-offset to its own
size and appends the new record. -/
theorem add_entry_append (X : List Nat) (b e : EaEntry) (c : Nat) :
    EaOut.add_entry ⟨X ++ eaRecord 0 b, some (X.length, eaSizeOf b), c⟩ e =
      ⟨(X ++ eaRecord (eaSizeOf b) b) ++ eaRecord 0 e,
        some ((X ++ eaRecord (eaSizeOf b) b).length, eaSizeOf e), c + 1⟩ := by
  have hXlen : (X ++ eaRecord (eaSizeOf b) b).length = X.length + eaSizeOf b := by
    simp [eaRecord_length']
  have hsz : ea_entry_size_inner (e.name.length % 256) (e.value.length % 65536)
      = eaSizeOf e := rfl
  unfold EaOut.add_entry
  simp only [hsz]
  congr 1
  · have hassoc1 : (X ++ eaRecord 0 b) ++ List.replicate (eaSizeOf e) 0
        = X ++ (eaRecord 0 b ++ List.replicate (eaSizeOf e) 0) :=
      List.append_assoc _ _ _
    rw [hassoc1, writeAt_append_right' _ _ X.length 0 _ (by omega), eaRecord_patch]
    have hassoc2 : X ++ (eaRecord (eaSizeOf b) b ++ List.replicate (eaSizeOf e) 0)
        = (X ++ eaRecord (eaSizeOf b) b) ++ List.replicate (eaSizeOf e) 0 :=
      (List.append_assoc _ _ _).symm
    rw [hassoc2,
      writeAt_append_right' _ _ (X.length + eaSizeOf b) 0 _ (by rw [hXlen]; omega),
      writeAt_append_right' _ _ (X.length + eaSizeOf b + 8) 8 _ (by rw [hXlen]),
      writeAt_append_right' _ _ (X.length + eaSizeOf b + 8 + e.name.length % 256 + 1)
        (8 + e.name.length % 256 + 1) _ (by rw [hXlen]; omega)]
    rw [writes_record e]
  · rw [hXlen]

/-! Offset-shift variants taking the position as an explicit equation, so the
rewrites in the decode proofs are deterministic. -/

theorem byteAt_append_shift (A B : List Nat) (p k : Nat) (h : p = A.length + k) :
    byteAt (A ++ B) p = byteAt B k := by
  rw [h, byteAt_append_right]

theorem le16At_append_shift (A B : List Nat) (p k : Nat) (h : p = A.length + k) :
    le16At (A ++ B) p = le16At B k := by
  rw [h, le16At_append_right]

theorem le32At_append_shift (A B : List Nat) (p k : Nat) (h : p = A.length + k) :
    le32At (A ++ B) p = le32At B k := by
  rw [h, le32At_append_right]

theorem le64At_append_shift (A B : List Nat) (p k : Nat) (h : p = A.length + k) :
    le64At (A ++ B) p = le64At B k := by
  rw [h, le64At_append_right]

theorem extract_append_shift (A B : List Nat) (p k len : Nat) (h : p = A.length + k) :
    extract (A ++ B) p len = extract B k len := by
  rw [h, extract_append_right]

/-- Canonical right-nested decomposition of an encoded record followed by any
tail, convenient for positional reads. -/
theorem eaRecord_decomp (n : Nat) (e : EaEntry) (post : List Nat) :
    eaRecord n e ++ post = le32 n ++
      ([0, e.name.length % 256] ++ (le16 (e.value.length % 65536) ++
        (e.name.take (e.name.length % 256) ++ ([0] ++
          (e.value.take (e.value.length % 65536) ++
            (List.replicate (ea_entry_size_inner (e.name.length % 256)
                (e.value.length % 65536) -
              (EA_BASE_SIZE_RAW + e.name.length % 256 + e.value.length % 65536)) 0
              ++ post)))))) := by
  simp [eaRecord, List.append_assoc]

theorem eaRecord_read_next (n : Nat) (e : EaEntry) (post : List Nat) :
    le32At (eaRecord n e ++ post) 0 = n % 4294967296 := by
  rw [eaRecord_decomp, le32At_le32]

theorem eaRecord_read_flags (n : Nat) (e : EaEntry) (post : List Nat) :
    byteAt (eaRecord n e ++ post) 4 = 0 := by
  rw [eaRecord_decomp, byteAt_append_shift (le32 n) _ 4 0 (by rfl)]
  rfl

theorem eaRecord_read_namelen (n : Nat) (e : EaEntry) (post : List Nat) :
    byteAt (eaRecord n e ++ post) 5 = e.name.length % 256 := by
  rw [eaRecord_decomp, byteAt_append_shift (le32 n) _ 5 1 (by rfl)]
  rfl

theorem eaRecord_read_valuelen (n : Nat) (e : EaEntry) (post : List Nat) :
    le16At (eaRecord n e ++ post) 6 = e.value.length % 65536 := by
  rw [eaRecord_decomp, le16At_append_shift (le32 n) _ 6 2 (by rfl),
    le16At_append_shift [0, e.name.length % 256] _ 2 0 (by rfl), le16At_le16]
  exact Nat.mod_eq_of_lt (Nat.mod_lt _ (by omega))

theorem eaRecord_read_name (n : Nat) (e : EaEntry) (post : List Nat) :
    extract (eaRecord n e ++ post) 8 (e.name.length % 256)
      = e.name.take (e.name.length % 256) := by
  rw [eaRecord_decomp, extract_append_shift (le32 n) _ 8 4 _ (by rfl),
    extract_append_shift [0, e.name.length % 256] _ 4 2 _ (by rfl),
    extract_append_shift (le16 (e.value.length % 65536)) _ 2 0 _ (by rfl)]
  unfold extract
  rw [List.drop_zero,
    List.take_left' (List.length_take_of_le (Nat.mod_le _ _))]

theorem eaRecord_read_value (n : Nat) (e : EaEntry) (post : List Nat) :
    extract (eaRecord n e ++ post) (8 + e.name.length % 256 + 1)
      (e.value.length % 65536) = e.value.take (e.value.length % 65536) := by
  have hnm : (e.name.take (e.name.length % 256)).length = e.name.length % 256 :=
    List.length_take_of_le (Nat.mod_le _ _)
  rw [eaRecord_decomp,
    extract_append_shift (le32 n) _ (8 + e.name.length % 256 + 1)
      (4 + e.name.length % 256 + 1) _ (by rw [le32_length]; omega),
    extract_append_shift [0, e.name.length % 256] _ (4 + e.name.length % 256 + 1)
      (2 + e.name.length % 256 + 1) _
      (by simp only [List.length_cons, List.length_nil]; omega),
    extract_append_shift (le16 (e.value.length % 65536)) _
      (2 + e.name.length % 256 + 1) (e.name.length % 256 + 1) _
      (by rw [le16_length]; omega)]
  have hgroup : e.name.take (e.name.length % 256) ++ ([0] ++
      (e.value.take (e.value.length % 65536) ++
        (List.replicate (ea_entry_size_inner (e.name.length % 256)
            (e.value.length % 65536) -
          (EA_BASE_SIZE_RAW + e.name.length % 256 + e.value.length % 65536)) 0
          ++ post)))
      = (e.name.take (e.name.length % 256) ++ [0]) ++
        (e.value.take (e.value.length % 65536) ++
          (List.replicate (ea_entry_size_inner (e.name.length % 256)
              (e.value.length % 65536) -
            (EA_BASE_SIZE_RAW + e.name.length % 256 + e.value.length % 65536)) 0
            ++ post)) := by
    simp [List.append_assoc]
  rw [hgroup,
    extract_append_shift (e.name.take (e.name.length % 256) ++ [0]) _
      (e.name.length % 256 + 1) 0 _ (by simp [hnm]),
    extract]
  rw [List.drop_zero,
    List.take_left' (List.length_take_of_le (Nat.mod_le _ _))]

/-- Functional form of the whole encoded chain: every record's next-offset is
its own size except the last, which gets 0. -/
def chainFrom (b : EaEntry) : List EaEntry → List Nat
  | [] => eaRecord 0 b
  | e :: rest => eaRecord (eaSizeOf b) b ++ chainFrom e rest

theorem foldl_add_entry_chainFrom (es : List EaEntry) :
    ∀ (X : List Nat) (b : EaEntry) (c : Nat),
      (es.foldl EaOut.add_entry ⟨X ++ eaRecord 0 b, some (X.length, eaSizeOf b), c⟩).buffer
        = X ++ chainFrom b es := by
  induction es with
  | nil => intro X b c; simp [chainFrom]
  | cons e rest ih =>
    intro X b c
    rw [List.foldl_cons, add_entry_append, ih, chainFrom, List.append_assoc]

/-- The buffer built by `EaOut` for a non-empty entry list. -/
theorem encodeEa_eq_chainFrom (b : EaEntry) (es : List EaEntry) :
    encodeEa (b :: es) = chainFrom b es := by
  unfold encodeEa
  rw [List.foldl_cons]
  show (es.foldl EaOut.add_entry (EaOut.add_entry ⟨[], none, 0⟩ b)).buffer = _
  rw [add_entry_first]
  have h : (⟨eaRecord 0 b, some (0, eaSizeOf b), 0 + 1⟩ : EaOut)
      = ⟨([] : List Nat) ++ eaRecord 0 b, some (List.length ([] : List Nat), eaSizeOf b), 1⟩ := by
    simp
  rw [h, foldl_add_entry_chainFrom]
  simp

theorem eaSizeOf_ge_twelve (e : EaEntry) : 12 ≤ eaSizeOf e :=
  ea_entry_size_inner_ge_twelve _ _

theorem eaSizeOf_lt (e : EaEntry) : eaSizeOf e < 4294967296 := by
  have h1 : e.name.length % 256 < 256 := Nat.mod_lt _ (by omega)
  have h2 : e.value.length % 65536 < 65536 := Nat.mod_lt _ (by omega)
  unfold eaSizeOf ea_entry_size_inner EA_BASE_SIZE_RAW EA_ALIGN
  omega

theorem chainFrom_length_ge (es : List EaEntry) :
    ∀ b : EaEntry, es.length + 12 ≤ (chainFrom b es).length := by
  induction es with
  | nil =>
    intro b
    simp only [chainFrom, List.length_nil, eaRecord_length']
    have := eaSizeOf_ge_twelve b
    omega
  | cons e rest ih =>
    intro b
    simp only [chainFrom, List.length_cons, List.length_append, eaRecord_length']
    have h1 := eaSizeOf_ge_twelve b
    have h2 := ih e
    omega

/-- Decoding the buffer that `EaOut` lays out for `b :: es` recovers the
entries, with all flags bytes zeroed (as `add_entry` writes them). -/
theorem parseEaLoop_chainFrom (es : List EaEntry) :
    ∀ (fuel : Nat) (b : EaEntry) (pre : List Nat),
      es.length + 1 ≤ fuel → WFe b → (∀ e ∈ es, WFe e) →
      parseEaLoop fuel (pre ++ chainFrom b es) pre.length
        = some ((b :: es).map clearFlags) := by
  induction es with
  | nil =>
    intro fuel b pre hfuel hb _
    obtain ⟨f, rfl⟩ : ∃ f, fuel = f + 1 := ⟨fuel - 1, by omega⟩
    obtain ⟨hb1, hb2⟩ := hb
    have hnl : b.name.length % 256 = b.name.length := Nat.mod_eq_of_lt (by omega)
    have hvl : b.value.length % 65536 = b.value.length := Nat.mod_eq_of_lt (by omega)
    have hpost : chainFrom b [] = eaRecord 0 b ++ [] := by simp [chainFrom]
    rw [hpost]
    have hsz12 : 12 ≤ eaSizeOf b := eaSizeOf_ge_twelve b
    have hlen : (pre ++ (eaRecord 0 b ++ [])).length = pre.length + eaSizeOf b := by
      simp [eaRecord_length']
    have r5 : byteAt (pre ++ (eaRecord 0 b ++ [])) (pre.length + 5) = b.name.length := by
      rw [byteAt_append_shift pre _ _ 5 rfl, eaRecord_read_namelen, hnl]
    have r6 : le16At (pre ++ (eaRecord 0 b ++ [])) (pre.length + 6) = b.value.length := by
      rw [le16At_append_shift pre _ _ 6 rfl, eaRecord_read_valuelen, hvl]
    have r4 : byteAt (pre ++ (eaRecord 0 b ++ [])) (pre.length + 4) = 0 := by
      rw [byteAt_append_shift pre _ _ 4 rfl, eaRecord_read_flags]
    have r0 : le32At (pre ++ (eaRecord 0 b ++ [])) pre.length = 0 := by
      rw [le32At_append_shift pre _ pre.length 0 (by omega), eaRecord_read_next]
    have rn : extract (pre ++ (eaRecord 0 b ++ [])) (pre.length + 8) b.name.length
        = b.name := by
      have h := eaRecord_read_name 0 b []
      rw [hnl] at h
      rw [extract_append_shift pre _ _ 8 _ rfl, h, List.take_length]
    have rv : extract (pre ++ (eaRecord 0 b ++ []))
        (pre.length + 8 + b.name.length + 1) b.value.length = b.value := by
      have h := eaRecord_read_value 0 b []
      rw [hnl, hvl] at h
      rw [extract_append_shift pre _ _ (8 + b.name.length + 1) _ (by omega), h,
        List.take_length]
    have hszr : ea_entry_size_inner b.name.length b.value.length = eaSizeOf b := by
      unfold eaSizeOf
      rw [hnl, hvl]
    simp only [parseEaLoop, r5, r6, r4, r0, rn, rv, hszr, hlen]
    rw [if_pos (by omega), if_pos (by omega)]
    simp [clearFlags]
  | cons e rest ih =>
    intro fuel b pre hfuel hb hwf
    obtain ⟨f, rfl⟩ : ∃ f, fuel = f + 1 := ⟨fuel - 1, by omega⟩
    obtain ⟨hb1, hb2⟩ := hb
    have hnl : b.name.length % 256 = b.name.length := Nat.mod_eq_of_lt (by omega)
    have hvl : b.value.length % 65536 = b.value.length := Nat.mod_eq_of_lt (by omega)
    have hpost : chainFrom b (e :: rest) = eaRecord (eaSizeOf b) b ++ chainFrom e rest :=
      rfl
    rw [hpost]
    have hsz12 : 12 ≤ eaSizeOf b := eaSizeOf_ge_twelve b
    have hlen : (pre ++ (eaRecord (eaSizeOf b) b ++ chainFrom e rest)).length
        = pre.length + eaSizeOf b + (chainFrom e rest).length := by
      simp [eaRecord_length']
      omega
    have r5 : byteAt (pre ++ (eaRecord (eaSizeOf b) b ++ chainFrom e rest))
        (pre.length + 5) = b.name.length := by
      rw [byteAt_append_shift pre _ _ 5 rfl, eaRecord_read_namelen, hnl]
    have r6 : le16At (pre ++ (eaRecord (eaSizeOf b) b ++ chainFrom e rest))
        (pre.length + 6) = b.value.length := by
      rw [le16At_append_shift pre _ _ 6 rfl, eaRecord_read_valuelen, hvl]
    have r4 : byteAt (pre ++ (eaRecord (eaSizeOf b) b ++ chainFrom e rest))
        (pre.length + 4) = 0 := by
      rw [byteAt_append_shift pre _ _ 4 rfl, eaRecord_read_flags]
    have r0 : le32At (pre ++ (eaRecord (eaSizeOf b) b ++ chainFrom e rest)) pre.length
        = eaSizeOf b := by
      rw [le32At_append_shift pre _ pre.length 0 (by omega), eaRecord_read_next]
      exact Nat.mod_eq_of_lt (eaSizeOf_lt b)
    have rn : extract (pre ++ (eaRecord (eaSizeOf b) b ++ chainFrom e rest))
        (pre.length + 8) b.name.length = b.name := by
      have h := eaRecord_read_name (eaSizeOf b) b (chainFrom e rest)
      rw [hnl] at h
      rw [extract_append_shift pre _ _ 8 _ rfl, h, List.take_length]
    have rv : extract (pre ++ (eaRecord (eaSizeOf b) b ++ chainFrom e rest))
        (pre.length + 8 + b.name.length + 1) b.value.length = b.value := by
      have h := eaRecord_read_value (eaSizeOf b) b (chainFrom e rest)
      rw [hnl, hvl] at h
      rw [extract_append_shift pre _ _ (8 + b.name.length + 1) _ (by omega), h,
        List.take_length]
    have hszr : ea_entry_size_inner b.name.length b.value.length = eaSizeOf b := by
      unfold eaSizeOf
      rw [hnl, hvl]
    have hrec : parseEaLoop f (pre ++ (eaRecord (eaSizeOf b) b ++ chainFrom e rest))
        (pre.length + eaSizeOf b) = some ((e :: rest).map clearFlags) := by
      have hassoc : pre ++ (eaRecord (eaSizeOf b) b ++ chainFrom e rest)
          = (pre ++ eaRecord (eaSizeOf b) b) ++ chainFrom e rest :=
        (List.append_assoc _ _ _).symm
      have hpos : pre.length + eaSizeOf b = (pre ++ eaRecord (eaSizeOf b) b).length := by
        simp [eaRecord_length']
      rw [hassoc, hpos]
      exact ih f e (pre ++ eaRecord (eaSizeOf b) b)
        (by simp at hfuel ⊢; omega)
        (hwf e (by simp))
        (fun x hx => hwf x (by simp [hx]))
    have hchain := chainFrom_length_ge rest e
    simp only [parseEaLoop, r5, r6, r4, r0, rn, rv, hszr, hlen]
    rw [if_pos (by omega), if_pos (by omega), if_neg (by omega), hrec]
    simp [clearFlags]

/-- Encoding a non-empty list of length-well-formed entries and decoding the
result restores the entries with their flags bytes zeroed. -/
theorem parse_ea_encodeEa (b : EaEntry) (es : List EaEntry)
    (hwf : ∀ e ∈ b :: es, WFe e) :
    parse_ea (encodeEa (b :: es)) = some ((b :: es).map clearFlags) := by
  rw [encodeEa_eq_chainFrom]
  have hfuel : es.length + 1 ≤ (chainFrom b es).length + 1 := by
    have := chainFrom_length_ge es b
    omega
  exact parseEaLoop_chainFrom es ((chainFrom b es).length + 1) b []
    hfuel (hwf b (by simp)) (fun e he => hwf e (by simp [he]))

theorem extract_length_le (buf : List Nat) (pos len : Nat) :
    (extract buf pos len).length ≤ len := by
  simp only [extract, List.length_take]
  omega

theorem byteAt_lt (buf : List Nat) (h : ∀ x ∈ buf, x < 256) (i : Nat)
    (hi : i < buf.length) : byteAt buf i < 256 := by
  unfold byteAt
  rw [List.getD_eq_getElem buf 0 hi]
  exact h _ (List.getElem_mem hi)

/-- The entry built by one step of the parse loop has in-range lengths
whenever the buffer holds bytes. -/
theorem head_entry_wf (buf : List Nat) (pos : Nat) (hb : ∀ x ∈ buf, x < 256)
    (h1 : pos + 12 ≤ buf.length) :
    WFe { flags := byteAt buf (pos + 4)
          name := extract buf (pos + 8) (byteAt buf (pos + 5))
          value := extract buf (pos + 8 + byteAt buf (pos + 5) + 1)
            (le16At buf (pos + 6)) } := by
  have hn : byteAt buf (pos + 5) < 256 := byteAt_lt buf hb _ (by omega)
  have h6 : byteAt buf (pos + 6) < 256 := byteAt_lt buf hb _ (by omega)
  have h7 : byteAt buf (pos + 6 + 1) < 256 := byteAt_lt buf hb _ (by omega)
  constructor
  · have := extract_length_le buf (pos + 8) (byteAt buf (pos + 5))
    simp only []
    omega
  · have := extract_length_le buf (pos + 8 + byteAt buf (pos + 5) + 1)
      (le16At buf (pos + 6))
    have hle : le16At buf (pos + 6) ≤ 65535 := by
      unfold le16At
      omega
    simp only []
    omega

/-- A successful decode of a byte buffer yields a non-empty list of entries
with in-range name and value lengths. -/
theorem parseEaLoop_wf (fuel : Nat) :
    ∀ (buf : List Nat) (pos : Nat) (es : List EaEntry),
      (∀ x ∈ buf, x < 256) → parseEaLoop fuel buf pos = some es →
      es ≠ [] ∧ ∀ e ∈ es, WFe e := by
  induction fuel with
  | zero =>
    intro buf pos es _ h
    simp [parseEaLoop] at h
  | succ f ih =>
    intro buf pos es hb h
    simp only [parseEaLoop] at h
    by_cases c1 : pos + 12 ≤ buf.length
    · rw [if_pos c1] at h
      by_cases c2 : pos + ea_entry_size_inner (byteAt buf (pos + 5))
          (le16At buf (pos + 6)) ≤ buf.length
      · rw [if_pos c2] at h
        have hhd := head_entry_wf buf pos hb c1
        by_cases c3 : le32At buf pos = 0
        · rw [if_pos c3] at h
          obtain rfl : _ = es := Option.some_inj.mp h
          refine ⟨by simp, ?_⟩
          intro e' he'
          simp only [List.mem_singleton] at he'
          subst he'
          exact hhd
        · rw [if_neg c3] at h
          cases hrec : parseEaLoop f buf (pos + le32At buf pos) with
          | none => rw [hrec] at h; simp at h
          | some rest =>
            rw [hrec] at h
            obtain rfl : _ = es := Option.some_inj.mp h
            refine ⟨by simp, ?_⟩
            intro e' he'
            rcases List.mem_cons.mp he' with rfl | hm
            · exact hhd
            · exact (ih buf _ rest hb hrec).2 e' hm
      · rw [if_neg c2] at h
        simp at h
    · rw [if_neg c1] at h
      simp at h

/-- The decoder fails exactly when the bound-checking walk flags a record
whose header or computed end exceeds the buffer. -/
theorem parseEaLoop_none_iff (fuel : Nat) :
    ∀ (buf : List Nat) (pos : Nat),
      parseEaLoop fuel buf pos = none ↔ chainBadLoop fuel buf pos = true := by
  induction fuel with
  | zero =>
    intro buf pos
    simp [parseEaLoop, chainBadLoop]
  | succ f ih =>
    intro buf pos
    simp only [parseEaLoop, chainBadLoop]
    by_cases c1 : pos + 12 ≤ buf.length
    · rw [if_pos c1, if_pos c1]
      by_cases c2 : pos + ea_entry_size_inner (byteAt buf (pos + 5))
          (le16At buf (pos + 6)) ≤ buf.length
      · rw [if_pos c2, if_pos c2]
        by_cases c3 : le32At buf pos = 0
        · rw [if_pos c3, if_pos c3]
          simp
        · rw [if_neg c3, if_neg c3]
          cases hrec : parseEaLoop f buf (pos + le32At buf pos) with
          | none =>
            simp only [true_iff]
            exact (ih buf _).mp hrec
          | some rest =>
            constructor
            · intro hcontr
              simp at hcontr
            · intro hbad
              have := (ih buf (pos + le32At buf pos)).mpr hbad
              rw [hrec] at this
              simp at this
      · rw [if_neg c2, if_neg c2]
        simp
    · rw [if_neg c1, if_neg c1]
      simp

/-- Every name and value of a successful decode is a contiguous in-bounds
slice of the input buffer: no read reaches outside it. -/
theorem parseEaLoop_slices (fuel : Nat) :
    ∀ (buf : List Nat) (pos : Nat) (es : List EaEntry),
      parseEaLoop fuel buf pos = some es →
      ∀ e ∈ es,
        (∃ p l, p + l ≤ buf.length ∧ e.name = extract buf p l) ∧
        (∃ p l, p + l ≤ buf.length ∧ e.value = extract buf p l) := by
  induction fuel with
  | zero =>
    intro buf pos es h
    simp [parseEaLoop] at h
  | succ f ih =>
    intro buf pos es h
    simp only [parseEaLoop] at h
    by_cases c1 : pos + 12 ≤ buf.length
    · rw [if_pos c1] at h
      by_cases c2 : pos + ea_entry_size_inner (byteAt buf (pos + 5))
          (le16At buf (pos + 6)) ≤ buf.length
      · rw [if_pos c2] at h
        have hsz := ea_entry_size_inner_ge (byteAt buf (pos + 5)) (le16At buf (pos + 6))
        have hhd : (∃ p l, p + l ≤ buf.length ∧
              extract buf (pos + 8) (byteAt buf (pos + 5)) = extract buf p l) ∧
            (∃ p l, p + l ≤ buf.length ∧
              extract buf (pos + 8 + byteAt buf (pos + 5) + 1) (le16At buf (pos + 6))
                = extract buf p l) := by
          constructor
          · exact ⟨pos + 8, byteAt buf (pos + 5),
              by unfold EA_BASE_SIZE_RAW at hsz; omega, rfl⟩
          · exact ⟨pos + 8 + byteAt buf (pos + 5) + 1, le16At buf (pos + 6),
              by unfold EA_BASE_SIZE_RAW at hsz; omega, rfl⟩
        by_cases c3 : le32At buf pos = 0
        · rw [if_pos c3] at h
          obtain rfl : _ = es := Option.some_inj.mp h
          intro e' he'
          simp only [List.mem_singleton] at he'
          subst he'
          exact hhd
        · rw [if_neg c3] at h
          cases hrec : parseEaLoop f buf (pos + le32At buf pos) with
          | none => rw [hrec] at h; simp at h
          | some rest =>
            rw [hrec] at h
            obtain rfl : _ = es := Option.some_inj.mp h
            intro e' he'
            rcases List.mem_cons.mp he' with rfl | hm
            · exact hhd
            · exact ih buf _ rest hrec e' hm
      · rw [if_neg c2] at h
        simp at h
    · rw [if_neg c1] at h
      simp at h

/-! ### Copy-on-write values

`Cow<'a, T>` from the source: a value either still borrowed from the decoded
buffer or owned after a mutation.  `save` uses the distinction to decide which
entries to include in the EA write. -/

inductive Cow (α : Type) where
  | borrowed : α → Cow α
  | owned : α → Cow α
deriving Repr, DecidableEq

def Cow.get {α : Type} : Cow α → α
  | .borrowed a => a
  | .owned a => a

def Cow.isOwned {α : Type} : Cow α → Bool
  | .borrowed _ => false
  | .owned _ => true

/-! ### LXXATTR mini-chain codec (`lxfs.rs`)

Record layout (`LxxattrEntryRaw`): next-offset u32, value length u16, name
length u8, name bytes at offset 7, value bytes right after, one trailing
(ignored) byte; no alignment.  The whole buffer has a 4-byte header
`00 00 01 00` (flags = 0, version = 1). -/

structure LxxattrEntry where
  name : Cow (List Nat)
  /-- `None` means the attribute will be deleted on save. -/
  value : Option (Cow (List Nat))
deriving Repr, DecidableEq

/-- `LxxattrEntryRaw::size_inner`: base size 8 plus name and value bytes. -/
def lxxattr_size_inner (name_len value_len : Nat) : Nat := 8 + name_len + value_len

/-- The loop of `parse_lxxattr`, with the same assert-to-`none` convention as
the EA chain parser. -/
def parseLxxattrLoop : Nat → List Nat → Nat → Option (List LxxattrEntry)
  | 0, _, _ => none
  | fuel + 1, buf, pos =>
    if pos + 8 ≤ buf.length then
      let valueLen := le16At buf (pos + 4)
      let nameLen := byteAt buf (pos + 6)
      if pos + lxxattr_size_inner nameLen valueLen ≤ buf.length then
        let e : LxxattrEntry :=
          { name := .borrowed (extract buf (pos + 7) nameLen)
            value := some (.borrowed (extract buf (pos + 7 + nameLen) valueLen)) }
        if le32At buf pos = 0 then some [e]
        else
          match parseLxxattrLoop fuel buf (pos + le32At buf pos) with
          | none => none
          | some rest => some (e :: rest)
      else none
    else none

/-- `parse_lxxattr`: header size, flags and version asserts, then the record
walk starting at offset 4. -/
def parse_lxxattr (buf : List Nat) : Option (List LxxattrEntry) :=
  if 12 ≤ buf.length ∧ le16At buf 0 = 0 ∧ le16At buf 2 = 1 then
    parseLxxattrLoop (buf.length + 1) buf 4
  else none

/-- Serialization state of `LxxattrOut`. -/
structure LxxattrOut where
  buffer : List Nat
  last_attr_info : Option (Nat × Nat)
  count : Nat
deriving Repr, DecidableEq

instance : Inhabited LxxattrOut := ⟨⟨[], none, 0⟩⟩

/-- `LxxattrOut::add`: lay down the `00 00 01 00` header on first use, append
a zero region of the record size, patch the previous record's next-offset, and
write the new record's fields (name at offset 7, value right after). -/
def LxxattrOut.add (out : LxxattrOut) (name value : List Nat) : LxxattrOut :=
  let nl := name.length % 256
  let vl := value.length % 65536
  let this_size := lxxattr_size_inner nl vl
  let base := if out.buffer = [] then [0, 0, 1, 0] else out.buffer
  let buf0 := base ++ List.replicate this_size 0
  let patched := match out.last_attr_info with
    | some info => writeAt buf0 info.1 (le32 info.2)
    | none => buf0
  let this_pos := match out.last_attr_info with
    | some info => info.1 + info.2
    | none => 4
  let buf1 := writeAt patched this_pos (le32 0 ++ le16 vl ++ [nl])
  let buf2 := writeAt buf1 (this_pos + 7) (name.take nl)
  let buf3 := writeAt buf2 (this_pos + 7 + nl) (value.take vl)
  { buffer := buf3
    last_attr_info := some (this_pos, this_size)
    count := out.count + 1 }

/-- Mini-chain serialization of a list of name/value pairs (the fold of
`LxxattrOut::add` the scheme codecs and the migration perform). -/
def encodeLxxattr (pairs : List (List Nat × List Nat)) : List Nat :=
  (pairs.foldl (fun o p => LxxattrOut.add o p.1 p.2) default).buffer

/-- Functional form of one encoded mini-chain record. -/
def miniRecord (nextOff : Nat) (name value : List Nat) : List Nat :=
  le32 nextOff ++ le16 (value.length % 65536) ++ [name.length % 256] ++
    name.take (name.length % 256) ++ value.take (value.length % 65536) ++ [0]

/-- Record size of a name/value pair after the u8/u16 casts. -/
def miniSizeOf (p : List Nat × List Nat) : Nat :=
  lxxattr_size_inner (p.1.length % 256) (p.2.length % 65536)

theorem miniRecord_length (nextOff : Nat) (p : List Nat × List Nat) :
    (miniRecord nextOff p.1 p.2).length = miniSizeOf p := by
  simp only [miniRecord, List.length_append, le32_length, le16_length,
    List.length_cons, List.length_take, List.length_nil, List.length_singleton]
  have h1 : min (p.1.length % 256) p.1.length = p.1.length % 256 :=
    Nat.min_eq_left (Nat.mod_le _ _)
  have h2 : min (p.2.length % 65536) p.2.length = p.2.length % 65536 :=
    Nat.min_eq_left (Nat.mod_le _ _)
  rw [h1, h2]
  unfold miniSizeOf lxxattr_size_inner
  omega

theorem miniSizeOf_ge_eight (p : List Nat × List Nat) : 8 ≤ miniSizeOf p := by
  unfold miniSizeOf lxxattr_size_inner
  omega

theorem miniSizeOf_lt (p : List Nat × List Nat) : miniSizeOf p < 4294967296 := by
  have h1 : p.1.length % 256 < 256 := Nat.mod_lt _ (by omega)
  have h2 : p.2.length % 65536 < 65536 := Nat.mod_lt _ (by omega)
  unfold miniSizeOf lxxattr_size_inner
  omega

/-- The three writes of `LxxattrOut::add` into the zero-extended region
produce the functional record with next-offset 0. -/
theorem miniWrites (p : List Nat × List Nat) :
    writeAt (writeAt (writeAt (List.replicate (miniSizeOf p) 0) 0
        (le32 0 ++ le16 (p.2.length % 65536) ++ [p.1.length % 256]))
      7 (p.1.take (p.1.length % 256)))
      (7 + p.1.length % 256) (p.2.take (p.2.length % 65536))
    = miniRecord 0 p.1 p.2 := by
  have hnm : (p.1.take (p.1.length % 256)).length = p.1.length % 256 :=
    List.length_take_of_le (Nat.mod_le _ _)
  have hvb : (p.2.take (p.2.length % 65536)).length = p.2.length % 65536 :=
    List.length_take_of_le (Nat.mod_le _ _)
  have hhdr : (le32 0 ++ le16 (p.2.length % 65536) ++ [p.1.length % 256]).length = 7 := rfl
  rw [writeAt_zero, hhdr, List.drop_replicate]
  rw [writeAt_append_right' _ _ 7 0 _ (by rw [hhdr]), writeAt_zero, hnm,
    List.drop_replicate]
  rw [← List.append_assoc,
    writeAt_append_right' _ _ (7 + p.1.length % 256) 0 _
      (by simp only [List.length_append, hhdr, hnm]; omega)]
  rw [writeAt_zero, hvb, List.drop_replicate]
  have hone : miniSizeOf p - 7 - (p.1.length % 256) - (p.2.length % 65536) = 1 := by
    unfold miniSizeOf lxxattr_size_inner
    omega
  rw [hone]
  simp [miniRecord, List.append_assoc]

theorem miniRecord_patch (m n : Nat) (p1 p2 : List Nat) (Y : List Nat) :
    writeAt (miniRecord n p1 p2 ++ Y) 0 (le32 m) = miniRecord m p1 p2 ++ Y := by
  have h4 : (le32 m).length = 4 := rfl
  rw [writeAt_zero, h4]
  have hrec : miniRecord n p1 p2 ++ Y = le32 n ++
      ((le16 (p2.length % 65536) ++ [p1.length % 256] ++
        p1.take (p1.length % 256) ++ p2.take (p2.length % 65536) ++ [0]) ++ Y) := by
    simp [miniRecord, List.append_assoc]
  rw [hrec, List.drop_left' (by rfl)]
  simp [miniRecord, List.append_assoc]

theorem mini_add_first (name value : List Nat) (c : Nat) :
    LxxattrOut.add ⟨[], none, c⟩ name value =
      ⟨[0, 0, 1, 0] ++ miniRecord 0 name value,
        some (4, miniSizeOf (name, value)), c + 1⟩ := by
  have hsz : lxxattr_size_inner (name.length % 256) (value.length % 65536)
      = miniSizeOf (name, value) := rfl
  unfold LxxattrOut.add
  simp only [hsz, if_pos rfl]
  congr 1
  rw [writeAt_append_right' _ _ 4 0 _ (by rfl),
    writeAt_append_right' _ _ (4 + 7) 7 _ (by rfl),
    writeAt_append_right' _ _ (4 + 7 + name.length % 256) (7 + name.length % 256) _
      (by simp; omega)]
  rw [miniWrites (name, value)]
  simp

theorem mini_add_append (X : List Nat) (a b name value : List Nat) (c : Nat) :
    LxxattrOut.add ⟨X ++ miniRecord 0 a b, some (X.length, miniSizeOf (a, b)), c⟩
        name value =
      ⟨(X ++ miniRecord (miniSizeOf (a, b)) a b) ++ miniRecord 0 name value,
        some ((X ++ miniRecord (miniSizeOf (a, b)) a b).length,
          miniSizeOf (name, value)), c + 1⟩ := by
  have hXlen : (X ++ miniRecord (miniSizeOf (a, b)) a b).length
      = X.length + miniSizeOf (a, b) := by
    simp [miniRecord_length _ (a, b)]
  have hne : ¬(X ++ miniRecord 0 a b = []) := by
    intro hc
    have h := congrArg List.length hc
    simp only [List.length_append, List.length_nil] at h
    have h8 := miniSizeOf_ge_eight (a, b)
    rw [miniRecord_length 0 (a, b)] at h
    omega
  have hsz : lxxattr_size_inner (name.length % 256) (value.length % 65536)
      = miniSizeOf (name, value) := rfl
  unfold LxxattrOut.add
  simp only [hsz, if_neg hne]
  congr 1
  · have hassoc1 : (X ++ miniRecord 0 a b) ++ List.replicate (miniSizeOf (name, value)) 0
        = X ++ (miniRecord 0 a b ++ List.replicate (miniSizeOf (name, value)) 0) :=
      List.append_assoc _ _ _
    rw [hassoc1, writeAt_append_right' _ _ X.length 0 _ (by omega),
      miniRecord_patch]
    have hassoc2 : X ++ (miniRecord (miniSizeOf (a, b)) a b ++
          List.replicate (miniSizeOf (name, value)) 0)
        = (X ++ miniRecord (miniSizeOf (a, b)) a b) ++
          List.replicate (miniSizeOf (name, value)) 0 :=
      (List.append_assoc _ _ _).symm
    rw [hassoc2,
      writeAt_append_right' _ _ (X.length + miniSizeOf (a, b)) 0 _
        (by rw [hXlen]; omega),
      writeAt_append_right' _ _ (X.length + miniSizeOf (a, b) + 7) 7 _ (by rw [hXlen]),
      writeAt_append_right' _ _ (X.length + miniSizeOf (a, b) + 7 + name.length % 256)
        (7 + name.length % 256) _ (by rw [hXlen]; omega)]
    rw [miniWrites (name, value)]
  · rw [hXlen]

/-- Functional form of the encoded mini-chain body (records only, without the
4-byte header): every next-offset is the record's own size except the last. -/
def miniChainFrom (p : List Nat × List Nat) : List (List Nat × List Nat) → List Nat
  | [] => miniRecord 0 p.1 p.2
  | q :: qs => miniRecord (miniSizeOf p) p.1 p.2 ++ miniChainFrom q qs

theorem foldl_mini_add_chainFrom (ps : List (List Nat × List Nat)) :
    ∀ (X : List Nat) (p : List Nat × List Nat) (c : Nat),
      ((ps.foldl (fun o q => LxxattrOut.add o q.1 q.2)
        ⟨X ++ miniRecord 0 p.1 p.2, some (X.length, miniSizeOf p), c⟩)).buffer
        = X ++ miniChainFrom p ps := by
  induction ps with
  | nil => intro X p c; simp [miniChainFrom]
  | cons q qs ih =>
    intro X p c
    rw [List.foldl_cons]
    have hadd := mini_add_append X p.1 p.2 q.1 q.2 c
    rw [hadd, ih, miniChainFrom, List.append_assoc]

/-- The buffer `LxxattrOut` builds for a non-empty pair list. -/
theorem encodeLxxattr_eq (p : List Nat × List Nat)
    (ps : List (List Nat × List Nat)) :
    encodeLxxattr (p :: ps) = [0, 0, 1, 0] ++ miniChainFrom p ps := by
  unfold encodeLxxattr
  rw [List.foldl_cons]
  show ((ps.foldl (fun o q => LxxattrOut.add o q.1 q.2)
    (LxxattrOut.add ⟨[], none, 0⟩ p.1 p.2))).buffer = _
  rw [mini_add_first]
  have h : (⟨[0, 0, 1, 0] ++ miniRecord 0 p.1 p.2, some (4, miniSizeOf (p.1, p.2)), 0 + 1⟩
        : LxxattrOut)
      = ⟨[0, 0, 1, 0] ++ miniRecord 0 p.1 p.2,
          some (List.length [0, 0, 1, 0], miniSizeOf p), 1⟩ := by
    simp
  rw [h, foldl_mini_add_chainFrom]

theorem miniRecord_decomp (n : Nat) (p1 p2 : List Nat) (post : List Nat) :
    miniRecord n p1 p2 ++ post = le32 n ++
      (le16 (p2.length % 65536) ++ ([p1.length % 256] ++
        (p1.take (p1.length % 256) ++ (p2.take (p2.length % 65536) ++
          ([0] ++ post))))) := by
  simp [miniRecord, List.append_assoc]

theorem miniRecord_read_next (n : Nat) (p1 p2 post : List Nat) :
    le32At (miniRecord n p1 p2 ++ post) 0 = n % 4294967296 := by
  rw [miniRecord_decomp, le32At_le32]

theorem miniRecord_read_valuelen (n : Nat) (p1 p2 post : List Nat) :
    le16At (miniRecord n p1 p2 ++ post) 4 = p2.length % 65536 := by
  rw [miniRecord_decomp, le16At_append_shift (le32 n) _ 4 0 (by rfl), le16At_le16]
  exact Nat.mod_eq_of_lt (Nat.mod_lt _ (by omega))

theorem miniRecord_read_namelen (n : Nat) (p1 p2 post : List Nat) :
    byteAt (miniRecord n p1 p2 ++ post) 6 = p1.length % 256 := by
  rw [miniRecord_decomp, byteAt_append_shift (le32 n) _ 6 2 (by rfl),
    byteAt_append_shift (le16 (p2.length % 65536)) _ 2 0 (by rfl)]
  rfl

theorem miniRecord_read_name (n : Nat) (p1 p2 post : List Nat) :
    extract (miniRecord n p1 p2 ++ post) 7 (p1.length % 256)
      = p1.take (p1.length % 256) := by
  rw [miniRecord_decomp, extract_append_shift (le32 n) _ 7 3 _ (by rfl),
    extract_append_shift (le16 (p2.length % 65536)) _ 3 1 _ (by rfl),
    extract_append_shift [p1.length % 256] _ 1 0 _ (by rfl)]
  unfold extract
  rw [List.drop_zero, List.take_left' (List.length_take_of_le (Nat.mod_le _ _))]

theorem miniRecord_read_value (n : Nat) (p1 p2 post : List Nat) :
    extract (miniRecord n p1 p2 ++ post) (7 + p1.length % 256) (p2.length % 65536)
      = p2.take (p2.length % 65536) := by
  have hnm : (p1.take (p1.length % 256)).length = p1.length % 256 :=
    List.length_take_of_le (Nat.mod_le _ _)
  rw [miniRecord_decomp,
    extract_append_shift (le32 n) _ (7 + p1.length % 256) (3 + p1.length % 256) _
      (by rw [le32_length]; omega),
    extract_append_shift (le16 (p2.length % 65536)) _ (3 + p1.length % 256)
      (1 + p1.length % 256) _ (by rw [le16_length]; omega),
    extract_append_shift [p1.length % 256] _ (1 + p1.length % 256) (p1.length % 256) _
      (by have h1 : ([p1.length % 256] : List Nat).length = 1 := rfl; omega),
    extract_append_shift (p1.take (p1.length % 256)) _ (p1.length % 256) 0 _
      (by rw [hnm]; omega)]
  unfold extract
  rw [List.drop_zero, List.take_left' (List.length_take_of_le (Nat.mod_le _ _))]

theorem miniChainFrom_length_ge (ps : List (List Nat × List Nat)) :
    ∀ p, ps.length + 8 ≤ (miniChainFrom p ps).length := by
  induction ps with
  | nil =>
    intro p
    simp only [miniChainFrom, List.length_nil, miniRecord_length _ p]
    have := miniSizeOf_ge_eight p
    omega
  | cons q qs ih =>
    intro p
    simp only [miniChainFrom, List.length_cons, List.length_append,
      miniRecord_length _ p]
    have h1 := miniSizeOf_ge_eight p
    have h2 := ih q
    omega

/-- Well-formed pair: the name and value lengths survive the casts. -/
def WFp (p : List Nat × List Nat) : Prop :=
  p.1.length ≤ 255 ∧ p.2.length ≤ 65535

instance (p : List Nat × List Nat) : Decidable (WFp p) := by
  unfold WFp; infer_instance

/-- Decoding the record region that `LxxattrOut` lays out for `p :: ps`
recovers every name/value pair as a borrowed entry. -/
theorem parseLxxattrLoop_chainFrom (ps : List (List Nat × List Nat)) :
    ∀ (fuel : Nat) (p : List Nat × List Nat) (pre : List Nat),
      ps.length + 1 ≤ fuel → WFp p → (∀ q ∈ ps, WFp q) →
      parseLxxattrLoop fuel (pre ++ miniChainFrom p ps) pre.length
        = some ((p :: ps).map fun q =>
            ({ name := .borrowed q.1, value := some (.borrowed q.2) } : LxxattrEntry)) := by
  induction ps with
  | nil =>
    intro fuel p pre hfuel hp _
    obtain ⟨f, rfl⟩ : ∃ f, fuel = f + 1 := ⟨fuel - 1, by omega⟩
    obtain ⟨hp1, hp2⟩ := hp
    have hnl : p.1.length % 256 = p.1.length := Nat.mod_eq_of_lt (by omega)
    have hvl : p.2.length % 65536 = p.2.length := Nat.mod_eq_of_lt (by omega)
    have hpost : miniChainFrom p [] = miniRecord 0 p.1 p.2 ++ [] := by
      simp [miniChainFrom]
    rw [hpost]
    have hsz8 : 8 ≤ miniSizeOf p := miniSizeOf_ge_eight p
    have hlen : (pre ++ (miniRecord 0 p.1 p.2 ++ [])).length
        = pre.length + miniSizeOf p := by
      simp [miniRecord_length _ p]
    have r6 : byteAt (pre ++ (miniRecord 0 p.1 p.2 ++ [])) (pre.length + 6)
        = p.1.length := by
      rw [byteAt_append_shift pre _ _ 6 rfl, miniRecord_read_namelen, hnl]
    have r4 : le16At (pre ++ (miniRecord 0 p.1 p.2 ++ [])) (pre.length + 4)
        = p.2.length := by
      rw [le16At_append_shift pre _ _ 4 rfl, miniRecord_read_valuelen, hvl]
    have r0 : le32At (pre ++ (miniRecord 0 p.1 p.2 ++ [])) pre.length = 0 := by
      rw [le32At_append_shift pre _ pre.length 0 (by omega), miniRecord_read_next]
    have rn : extract (pre ++ (miniRecord 0 p.1 p.2 ++ [])) (pre.length + 7)
        p.1.length = p.1 := by
      have h := miniRecord_read_name 0 p.1 p.2 []
      rw [hnl] at h
      rw [extract_append_shift pre _ _ 7 _ rfl, h, List.take_length]
    have rv : extract (pre ++ (miniRecord 0 p.1 p.2 ++ []))
        (pre.length + 7 + p.1.length) p.2.length = p.2 := by
      have h := miniRecord_read_value 0 p.1 p.2 []
      rw [hnl, hvl] at h
      rw [extract_append_shift pre _ _ (7 + p.1.length) _ (by omega), h,
        List.take_length]
    have hszr : lxxattr_size_inner p.1.length p.2.length = miniSizeOf p := by
      unfold miniSizeOf
      rw [hnl, hvl]
    simp only [parseLxxattrLoop, r6, r4, r0, rn, rv, hszr, hlen]
    rw [if_pos (by omega), if_pos (by omega)]
    simp
  | cons q qs ih =>
    intro fuel p pre hfuel hp hwf
    obtain ⟨f, rfl⟩ : ∃ f, fuel = f + 1 := ⟨fuel - 1, by omega⟩
    obtain ⟨hp1, hp2⟩ := hp
    have hnl : p.1.length % 256 = p.1.length := Nat.mod_eq_of_lt (by omega)
    have hvl : p.2.length % 65536 = p.2.length := Nat.mod_eq_of_lt (by omega)
    have hpost : miniChainFrom p (q :: qs)
        = miniRecord (miniSizeOf p) p.1 p.2 ++ miniChainFrom q qs := rfl
    rw [hpost]
    have hsz8 : 8 ≤ miniSizeOf p := miniSizeOf_ge_eight p
    have hlen : (pre ++ (miniRecord (miniSizeOf p) p.1 p.2 ++ miniChainFrom q qs)).length
        = pre.length + miniSizeOf p + (miniChainFrom q qs).length := by
      simp [miniRecord_length _ p]
      omega
    have r6 : byteAt (pre ++ (miniRecord (miniSizeOf p) p.1 p.2 ++ miniChainFrom q qs))
        (pre.length + 6) = p.1.length := by
      rw [byteAt_append_shift pre _ _ 6 rfl, miniRecord_read_namelen, hnl]
    have r4 : le16At (pre ++ (miniRecord (miniSizeOf p) p.1 p.2 ++ miniChainFrom q qs))
        (pre.length + 4) = p.2.length := by
      rw [le16At_append_shift pre _ _ 4 rfl, miniRecord_read_valuelen, hvl]
    have r0 : le32At (pre ++ (miniRecord (miniSizeOf p) p.1 p.2 ++ miniChainFrom q qs))
        pre.length = miniSizeOf p := by
      rw [le32At_append_shift pre _ pre.length 0 (by omega), miniRecord_read_next]
      exact Nat.mod_eq_of_lt (miniSizeOf_lt p)
    have rn : extract (pre ++ (miniRecord (miniSizeOf p) p.1 p.2 ++ miniChainFrom q qs))
        (pre.length + 7) p.1.length = p.1 := by
      have h := miniRecord_read_name (miniSizeOf p) p.1 p.2 (miniChainFrom q qs)
      rw [hnl] at h
      rw [extract_append_shift pre _ _ 7 _ rfl, h, List.take_length]
    have rv : extract (pre ++ (miniRecord (miniSizeOf p) p.1 p.2 ++ miniChainFrom q qs))
        (pre.length + 7 + p.1.length) p.2.length = p.2 := by
      have h := miniRecord_read_value (miniSizeOf p) p.1 p.2 (miniChainFrom q qs)
      rw [hnl, hvl] at h
      rw [extract_append_shift pre _ _ (7 + p.1.length) _ (by omega), h,
        List.take_length]
    have hszr : lxxattr_size_inner p.1.length p.2.length = miniSizeOf p := by
      unfold miniSizeOf
      rw [hnl, hvl]
    have hrec : parseLxxattrLoop f
        (pre ++ (miniRecord (miniSizeOf p) p.1 p.2 ++ miniChainFrom q qs))
        (pre.length + miniSizeOf p)
        = some ((q :: qs).map fun r =>
            ({ name := .borrowed r.1, value := some (.borrowed r.2) } : LxxattrEntry)) := by
      have hassoc : pre ++ (miniRecord (miniSizeOf p) p.1 p.2 ++ miniChainFrom q qs)
          = (pre ++ miniRecord (miniSizeOf p) p.1 p.2) ++ miniChainFrom q qs :=
        (List.append_assoc _ _ _).symm
      have hpos : pre.length + miniSizeOf p
          = (pre ++ miniRecord (miniSizeOf p) p.1 p.2).length := by
        simp [miniRecord_length _ p]
      rw [hassoc, hpos]
      exact ih f q (pre ++ miniRecord (miniSizeOf p) p.1 p.2)
        (by simp at hfuel ⊢; omega)
        (hwf q (by simp))
        (fun x hx => hwf x (by simp [hx]))
    have hchain := miniChainFrom_length_ge qs q
    simp only [parseLxxattrLoop, r6, r4, r0, rn, rv, hszr, hlen]
    rw [if_pos (by omega), if_pos (by omega), if_neg (by omega), hrec]
    simp

/-- Round trip for the LXXATTR mini-chain: encoding a non-empty list of
well-formed name/value pairs and decoding the buffer restores every pair. -/
theorem parse_lxxattr_encodeLxxattr (p : List Nat × List Nat)
    (ps : List (List Nat × List Nat)) (hwf : ∀ q ∈ p :: ps, WFp q) :
    parse_lxxattr (encodeLxxattr (p :: ps))
      = some ((p :: ps).map fun q =>
          ({ name := .borrowed q.1, value := some (.borrowed q.2) } : LxxattrEntry)) := by
  rw [encodeLxxattr_eq]
  have hchain := miniChainFrom_length_ge ps p
  have hlen : ([0, 0, 1, 0] ++ miniChainFrom p ps).length
      = 4 + (miniChainFrom p ps).length := by
    simp
    omega
  unfold parse_lxxattr
  have hflags : le16At ([0, 0, 1, 0] ++ miniChainFrom p ps) 0 = 0 := rfl
  have hver : le16At ([0, 0, 1, 0] ++ miniChainFrom p ps) 2 = 1 := rfl
  rw [if_pos ⟨by rw [hlen]; omega, hflags, hver⟩]
  have h4 : (4 : Nat) = (List.length [(0 : Nat), 0, 1, 0]) := rfl
  rw [h4]
  exact parseLxxattrLoop_chainFrom ps (([0, 0, 1, 0] ++ miniChainFrom p ps).length + 1)
    p [0, 0, 1, 0] (by rw [hlen]; omega) (hwf p (by simp))
    (fun q hq => hwf q (by simp [hq]))

/-! ### POSIX mode helpers (`posix.rs`) -/

def ST_MODE_TYPE_FIFO : Nat := 0o010000
def ST_MODE_TYPE_CHR : Nat := 0o020000
def ST_MODE_TYPE_DIR : Nat := 0o040000
def ST_MODE_TYPE_BLK : Nat := 0o060000
def ST_MODE_TYPE_REG : Nat := 0o100000
def ST_MODE_TYPE_LNK : Nat := 0o120000
def ST_MODE_TYPE_SOCK : Nat := 0o140000
/-- File-type mask for `st_mode`. -/
def ST_MODE_TYPE_MASK : Nat := 0o170000
def DEFAULT_MODE : Nat := 0o100644

inductive StModeType where
  | FIFO
  | CHR
  | DIR
  | BLK
  | REG
  | LNK
  | SOCK
  | UNKNOWN
deriving DecidableEq, Repr

def StModeType.from_mode (st_mode : Nat) : StModeType :=
  if st_mode &&& ST_MODE_TYPE_MASK = ST_MODE_TYPE_FIFO then .FIFO
  else if st_mode &&& ST_MODE_TYPE_MASK = ST_MODE_TYPE_CHR then .CHR
  else if st_mode &&& ST_MODE_TYPE_MASK = ST_MODE_TYPE_DIR then .DIR
  else if st_mode &&& ST_MODE_TYPE_MASK = ST_MODE_TYPE_BLK then .BLK
  else if st_mode &&& ST_MODE_TYPE_MASK = ST_MODE_TYPE_REG then .REG
  else if st_mode &&& ST_MODE_TYPE_MASK = ST_MODE_TYPE_LNK then .LNK
  else if st_mode &&& ST_MODE_TYPE_MASK = ST_MODE_TYPE_SOCK then .SOCK
  else .UNKNOWN

/-! ### Time conversion (`time_utils.rs`).  u64 arithmetic is wrapping. -/

structure LxfsTime where
  tv_sec : Nat
  tv_nsec : Nat
deriving Repr, DecidableEq

def u64_to_lxfs_time (t64 : Nat) : LxfsTime :=
  { tv_sec := (t64 / 10000000 + 18446744073709551616 - 11644473600)
      % 18446744073709551616
    tv_nsec := t64 % 10000000 % 4294967296 * 100 % 4294967296 }

/-! ### The Compact fixed record `EaLxattrbV1` (`lxfs.rs`) -/

/-- `FILE_BASIC_INFORMATION` (only the fields the tool reads). Times are
Windows 100ns ticks since 1601. -/
structure FILE_BASIC_INFORMATION where
  CreationTime : Nat
  LastAccessTime : Nat
  LastWriteTime : Nat
  ChangeTime : Nat
  FileAttributes : Nat
deriving Repr, DecidableEq

structure EaLxattrbV1 where
  flags : Nat
  version : Nat
  st_mode : Nat
  st_uid : Nat
  st_gid : Nat
  st_rdev : Nat
  st_atime_nsec : Nat
  st_mtime_nsec : Nat
  st_ctime_nsec : Nat
  st_atime : Nat
  st_mtime : Nat
  st_ctime : Nat
deriving Repr, DecidableEq

/-- `EaLxattrbV1::new`: defaults (version 1, `DEFAULT_MODE`, zero ids) with
timestamps from the basic file times when available. -/
def EaLxattrbV1.new (basic : Option FILE_BASIC_INFORMATION) : EaLxattrbV1 :=
  let base : EaLxattrbV1 :=
    { flags := 0, version := 1, st_mode := DEFAULT_MODE, st_uid := 0, st_gid := 0
      st_rdev := 0, st_atime_nsec := 0, st_mtime_nsec := 0, st_ctime_nsec := 0
      st_atime := 0, st_mtime := 0, st_ctime := 0 }
  match basic with
  | none => base
  | some fbi =>
    let ta := u64_to_lxfs_time fbi.LastAccessTime
    let tm := u64_to_lxfs_time fbi.LastWriteTime
    let tc := u64_to_lxfs_time fbi.ChangeTime
    { base with
      st_atime := ta.tv_sec, st_atime_nsec := ta.tv_nsec
      st_mtime := tm.tv_sec, st_mtime_nsec := tm.tv_nsec
      st_ctime := tc.tv_sec, st_ctime_nsec := tc.tv_nsec }

/-- The 56 bytes of the `repr(C)` struct on a little-endian machine (what
`get_buffer` passes to the EA writer). -/
def EaLxattrbV1.bytes (r : EaLxattrbV1) : List Nat :=
  le16 r.flags ++ le16 r.version ++ le32 r.st_mode ++ le32 r.st_uid ++
    le32 r.st_gid ++ le32 r.st_rdev ++ le32 r.st_atime_nsec ++
    le32 r.st_mtime_nsec ++ le32 r.st_ctime_nsec ++ le64 r.st_atime ++
    le64 r.st_mtime ++ le64 r.st_ctime

/-- `force_cast::<EaLxattrbV1>` on an EA value: asserts the value is at least
as large as the struct, then reinterprets the bytes. -/
def decodeLxattrb (buf : List Nat) : Option EaLxattrbV1 :=
  if 56 ≤ buf.length then
    some { flags := le16At buf 0, version := le16At buf 2, st_mode := le32At buf 4
           st_uid := le32At buf 8, st_gid := le32At buf 12, st_rdev := le32At buf 16
           st_atime_nsec := le32At buf 20, st_mtime_nsec := le32At buf 24
           st_ctime_nsec := le32At buf 28, st_atime := le64At buf 32
           st_mtime := le64At buf 40, st_ctime := le64At buf 48 }
  else none

/-- Field-wise machine-width truncation of a record. -/
def EaLxattrbV1.norm (r : EaLxattrbV1) : EaLxattrbV1 :=
  { flags := r.flags % 65536, version := r.version % 65536
    st_mode := r.st_mode % 4294967296, st_uid := r.st_uid % 4294967296
    st_gid := r.st_gid % 4294967296, st_rdev := r.st_rdev % 4294967296
    st_atime_nsec := r.st_atime_nsec % 4294967296
    st_mtime_nsec := r.st_mtime_nsec % 4294967296
    st_ctime_nsec := r.st_ctime_nsec % 4294967296
    st_atime := r.st_atime % 18446744073709551616
    st_mtime := r.st_mtime % 18446744073709551616
    st_ctime := r.st_ctime % 18446744073709551616 }

/-- Reinterpreting the serialized record recovers it, truncated to the field
widths. -/
theorem decodeLxattrb_bytes (r : EaLxattrbV1) (post : List Nat) :
    decodeLxattrb (r.bytes ++ post) = some r.norm := by
  have hb : r.bytes ++ post = le16 r.flags ++ (le16 r.version ++ (le32 r.st_mode ++
      (le32 r.st_uid ++ (le32 r.st_gid ++ (le32 r.st_rdev ++
      (le32 r.st_atime_nsec ++ (le32 r.st_mtime_nsec ++ (le32 r.st_ctime_nsec ++
      (le64 r.st_atime ++ (le64 r.st_mtime ++ (le64 r.st_ctime ++ post))))))))))) := by
    simp [EaLxattrbV1.bytes, List.append_assoc]
  have h56 : 56 ≤ (r.bytes ++ post).length := by
    have : r.bytes.length = 56 := rfl
    simp only [List.length_append, this]
    omega
  have f0 : le16At (r.bytes ++ post) 0 = r.flags % 65536 := by
    rw [hb, le16At_le16]
  have f2 : le16At (r.bytes ++ post) 2 = r.version % 65536 := by
    rw [hb, le16At_append_shift (le16 r.flags) _ 2 0 (by rfl), le16At_le16]
  have f4 : le32At (r.bytes ++ post) 4 = r.st_mode % 4294967296 := by
    rw [hb, le32At_append_shift (le16 r.flags) _ 4 2 (by rfl),
      le32At_append_shift (le16 r.version) _ 2 0 (by rfl), le32At_le32]
  have f8 : le32At (r.bytes ++ post) 8 = r.st_uid % 4294967296 := by
    rw [hb, le32At_append_shift (le16 r.flags) _ 8 6 (by rfl),
      le32At_append_shift (le16 r.version) _ 6 4 (by rfl),
      le32At_append_shift (le32 r.st_mode) _ 4 0 (by rfl), le32At_le32]
  have f12 : le32At (r.bytes ++ post) 12 = r.st_gid % 4294967296 := by
    rw [hb, le32At_append_shift (le16 r.flags) _ 12 10 (by rfl),
      le32At_append_shift (le16 r.version) _ 10 8 (by rfl),
      le32At_append_shift (le32 r.st_mode) _ 8 4 (by rfl),
      le32At_append_shift (le32 r.st_uid) _ 4 0 (by rfl), le32At_le32]
  have f16 : le32At (r.bytes ++ post) 16 = r.st_rdev % 4294967296 := by
    rw [hb, le32At_append_shift (le16 r.flags) _ 16 14 (by rfl),
      le32At_append_shift (le16 r.version) _ 14 12 (by rfl),
      le32At_append_shift (le32 r.st_mode) _ 12 8 (by rfl),
      le32At_append_shift (le32 r.st_uid) _ 8 4 (by rfl),
      le32At_append_shift (le32 r.st_gid) _ 4 0 (by rfl), le32At_le32]
  have f20 : le32At (r.bytes ++ post) 20 = r.st_atime_nsec % 4294967296 := by
    rw [hb, le32At_append_shift (le16 r.flags) _ 20 18 (by rfl),
      le32At_append_shift (le16 r.version) _ 18 16 (by rfl),
      le32At_append_shift (le32 r.st_mode) _ 16 12 (by rfl),
      le32At_append_shift (le32 r.st_uid) _ 12 8 (by rfl),
      le32At_append_shift (le32 r.st_gid) _ 8 4 (by rfl),
      le32At_append_shift (le32 r.st_rdev) _ 4 0 (by rfl), le32At_le32]
  have f24 : le32At (r.bytes ++ post) 24 = r.st_mtime_nsec % 4294967296 := by
    rw [hb, le32At_append_shift (le16 r.flags) _ 24 22 (by rfl),
      le32At_append_shift (le16 r.version) _ 22 20 (by rfl),
      le32At_append_shift (le32 r.st_mode) _ 20 16 (by rfl),
      le32At_append_shift (le32 r.st_uid) _ 16 12 (by rfl),
      le32At_append_shift (le32 r.st_gid) _ 12 8 (by rfl),
      le32At_append_shift (le32 r.st_rdev) _ 8 4 (by rfl),
      le32At_append_shift (le32 r.st_atime_nsec) _ 4 0 (by rfl), le32At_le32]
  have f28 : le32At (r.bytes ++ post) 28 = r.st_ctime_nsec % 4294967296 := by
    rw [hb, le32At_append_shift (le16 r.flags) _ 28 26 (by rfl),
      le32At_append_shift (le16 r.version) _ 26 24 (by rfl),
      le32At_append_shift (le32 r.st_mode) _ 24 20 (by rfl),
      le32At_append_shift (le32 r.st_uid) _ 20 16 (by rfl),
      le32At_append_shift (le32 r.st_gid) _ 16 12 (by rfl),
      le32At_append_shift (le32 r.st_rdev) _ 12 8 (by rfl),
      le32At_append_shift (le32 r.st_atime_nsec) _ 8 4 (by rfl),
      le32At_append_shift (le32 r.st_mtime_nsec) _ 4 0 (by rfl), le32At_le32]
  have f32 : le64At (r.bytes ++ post) 32 = r.st_atime % 18446744073709551616 := by
    rw [hb, le64At_append_shift (le16 r.flags) _ 32 30 (by rfl),
      le64At_append_shift (le16 r.version) _ 30 28 (by rfl),
      le64At_append_shift (le32 r.st_mode) _ 28 24 (by rfl),
      le64At_append_shift (le32 r.st_uid) _ 24 20 (by rfl),
      le64At_append_shift (le32 r.st_gid) _ 20 16 (by rfl),
      le64At_append_shift (le32 r.st_rdev) _ 16 12 (by rfl),
      le64At_append_shift (le32 r.st_atime_nsec) _ 12 8 (by rfl),
      le64At_append_shift (le32 r.st_mtime_nsec) _ 8 4 (by rfl),
      le64At_append_shift (le32 r.st_ctime_nsec) _ 4 0 (by rfl), le64At_le64]
  have f40 : le64At (r.bytes ++ post) 40 = r.st_mtime % 18446744073709551616 := by
    rw [hb, le64At_append_shift (le16 r.flags) _ 40 38 (by rfl),
      le64At_append_shift (le16 r.version) _ 38 36 (by rfl),
      le64At_append_shift (le32 r.st_mode) _ 36 32 (by rfl),
      le64At_append_shift (le32 r.st_uid) _ 32 28 (by rfl),
      le64At_append_shift (le32 r.st_gid) _ 28 24 (by rfl),
      le64At_append_shift (le32 r.st_rdev) _ 24 20 (by rfl),
      le64At_append_shift (le32 r.st_atime_nsec) _ 20 16 (by rfl),
      le64At_append_shift (le32 r.st_mtime_nsec) _ 16 12 (by rfl),
      le64At_append_shift (le32 r.st_ctime_nsec) _ 12 8 (by rfl),
      le64At_append_shift (le64 r.st_atime) _ 8 0 (by rfl), le64At_le64]
  have f48 : le64At (r.bytes ++ post) 48 = r.st_ctime % 18446744073709551616 := by
    rw [hb, le64At_append_shift (le16 r.flags) _ 48 46 (by rfl),
      le64At_append_shift (le16 r.version) _ 46 44 (by rfl),
      le64At_append_shift (le32 r.st_mode) _ 44 40 (by rfl),
      le64At_append_shift (le32 r.st_uid) _ 40 36 (by rfl),
      le64At_append_shift (le32 r.st_gid) _ 36 32 (by rfl),
      le64At_append_shift (le32 r.st_rdev) _ 32 28 (by rfl),
      le64At_append_shift (le32 r.st_atime_nsec) _ 28 24 (by rfl),
      le64At_append_shift (le32 r.st_mtime_nsec) _ 24 20 (by rfl),
      le64At_append_shift (le32 r.st_ctime_nsec) _ 20 16 (by rfl),
      le64At_append_shift (le64 r.st_atime) _ 16 8 (by rfl),
      le64At_append_shift (le64 r.st_mtime) _ 8 0 (by rfl), le64At_le64]
  unfold decodeLxattrb
  rw [if_pos h56, f0, f2, f4, f8, f12, f16, f20, f24, f28, f32, f40, f48]
  rfl

/-! ### EA names (ASCII byte strings) -/

def LXATTRB : List Nat := [76, 88, 65, 84, 84, 82, 66]
def LXXATTR : List Nat := [76, 88, 88, 65, 84, 84, 82]
def LXUID : List Nat := [36, 76, 88, 85, 73, 68]
def LXGID : List Nat := [36, 76, 88, 71, 73, 68]
def LXMOD : List Nat := [36, 76, 88, 77, 79, 68]
def LXDEV : List Nat := [36, 76, 88, 68, 69, 86]
/-- Name prefix of Linux extended attributes stored as NTFS EAs (`LX.`). -/
def LX_DOT : List Nat := [76, 88, 46]
/-- Value marker of those attributes (`lxea`). -/
def LXEA : List Nat := [108, 120, 101, 97]

/-! ### Packed device numbers (`lxfs.rs`) -/

def MINORBITS : Nat := 20
def MINORMASK : Nat := (1 <<< MINORBITS) - 1

def dev_major (dev : Nat) : Nat := dev >>> MINORBITS
def dev_minor (dev : Nat) : Nat := dev &&& MINORMASK
/-- `make_dev`: u32 shift wraps. -/
def make_dev (ma mi : Nat) : Nat := (ma <<< MINORBITS) % 4294967296 ||| mi

/-! ### The Compact codec state `LxfsParsed` (`lxfs.rs`) -/

structure LxfsParsed where
  lxattrb : Option (Cow EaLxattrbV1)
  lxxattr : Option (List LxxattrEntry)
  symlink : Option (List Nat)
  basic_file_info : Option FILE_BASIC_INFORMATION
deriving Repr, DecidableEq

instance : Inhabited LxfsParsed := ⟨⟨none, none, none, none⟩⟩

def LxfsParsed.maybe (p : LxfsParsed) : Bool :=
  p.lxattrb.isSome || p.lxxattr.isSome

def LxfsParsed.get_uid (p : LxfsParsed) : Option Nat :=
  p.lxattrb.map (fun l => (Cow.get l).st_uid)

def LxfsParsed.get_gid (p : LxfsParsed) : Option Nat :=
  p.lxattrb.map (fun l => (Cow.get l).st_gid)

def LxfsParsed.get_mode (p : LxfsParsed) : Option Nat :=
  p.lxattrb.map (fun l => (Cow.get l).st_mode)

def LxfsParsed.get_dev_major (p : LxfsParsed) : Option Nat :=
  p.lxattrb.map (fun l => dev_major (Cow.get l).st_rdev)

def LxfsParsed.get_dev_minor (p : LxfsParsed) : Option Nat :=
  p.lxattrb.map (fun l => dev_minor (Cow.get l).st_rdev)

/-- One step of `LxfsParsed::load`'s entry loop.  `force_cast` and
`parse_lxxattr` asserts are `none`; when the decoded mode has the symlink
file type the link target is read from file content (passed in as
`fileContent`, the external read capability). -/
def lxfsLoadStep (fileContent : List Nat) (p : LxfsParsed) (e : EaEntry) :
    Option LxfsParsed :=
  if e.name = LXATTRB then
    match decodeLxattrb e.value with
    | none => none
    | some r =>
      let p1 := { p with lxattrb := some (.borrowed r) }
      if StModeType.from_mode r.st_mode = .LNK then
        some { p1 with symlink := some fileContent }
      else some p1
  else if e.name = LXXATTR then
    match parse_lxxattr e.value with
    | none => none
    | some xs => some { p with lxxattr := some xs }
  else some p

def LxfsParsed.load (fileContent : List Nat) (basic : Option FILE_BASIC_INFORMATION)
    (ea_parsed : Option (List EaEntry)) : Option LxfsParsed :=
  let p0 : LxfsParsed :=
    { lxattrb := none, lxxattr := none, symlink := none, basic_file_info := basic }
  match ea_parsed with
  | none => some p0
  | some es => es.foldlM (lxfsLoadStep fileContent) p0

/-- `LxfsParsed::save`: the list of entries handed to `EaOut` (the written
buffer is `encodeEa` of it) together with the updated in-memory state.  The
fixed record is added only when owned; the mini-chain is re-encoded whenever
any named attributes are loaded or set, dropping deleted (valueless) ones. -/
def LxfsParsed.save (p : LxfsParsed) : List EaEntry × LxfsParsed :=
  let ents0 : List EaEntry :=
    match p.lxattrb with
    | some (.owned r) => [{ flags := 0, name := LXATTRB, value := r.bytes }]
    | _ => []
  match p.lxxattr with
  | some xs =>
    let kept := xs.filter (fun a => a.value.isSome)
    let pairs := kept.map (fun a =>
      (a.name.get, match a.value with | some v => v.get | none => []))
    (ents0 ++ [{ flags := 0, name := LXXATTR, value := encodeLxxattr pairs }],
      { p with lxxattr := some kept })
  | none => (ents0, p)

/-! ### The Scattered codec state `WslfsParsed` (`wslfs.rs`) -/

def IO_REPARSE_TAG_LX_SYMLINK : Nat := 0xA000001D
def IO_REPARSE_TAG_AF_UNIX : Nat := 0x80000023
def IO_REPARSE_TAG_LX_FIFO : Nat := 0x80000024
def IO_REPARSE_TAG_LX_CHR : Nat := 0x80000025
def IO_REPARSE_TAG_LX_BLK : Nat := 0x80000026

def StModeType.tag_id : StModeType → Nat
  | .LNK => IO_REPARSE_TAG_LX_SYMLINK
  | .FIFO => IO_REPARSE_TAG_LX_FIFO
  | .CHR => IO_REPARSE_TAG_LX_CHR
  | .BLK => IO_REPARSE_TAG_LX_BLK
  | .SOCK => IO_REPARSE_TAG_AF_UNIX
  | _ => 0

def StModeType.from_tag_id (tag_id : Nat) : StModeType :=
  if tag_id = IO_REPARSE_TAG_LX_SYMLINK then .LNK
  else if tag_id = IO_REPARSE_TAG_AF_UNIX then .SOCK
  else if tag_id = IO_REPARSE_TAG_LX_FIFO then .FIFO
  else if tag_id = IO_REPARSE_TAG_LX_CHR then .CHR
  else if tag_id = IO_REPARSE_TAG_LX_BLK then .BLK
  else .UNKNOWN

structure Lxdev where
  major : Nat
  minor : Nat
deriving Repr, DecidableEq

instance : Inhabited Lxdev := ⟨⟨0, 0⟩⟩

/-- One `LX.`-named attribute (`LxDotAttr`): the raw EA entry, name carrying
the `LX.` prefix and value carrying the `lxea` marker. -/
structure LxDotAttr where
  flags : Nat
  name : Cow (List Nat)
  value : Cow (List Nat)
deriving Repr, DecidableEq

def LxDotAttr.name_ea (a : LxDotAttr) : List Nat := a.name.get

def toAsciiLower (b : Nat) : Nat := if 65 ≤ b ∧ b ≤ 90 then b + 32 else b

/-- `LxDotAttr::name`: the slice `&name_ea[LX_DOT.len()..]` — a panic
(`none`) when the name is shorter than the 3-byte `LX.` prefix — then
`to_ascii_lowercase`. -/
def LxDotAttr.name_lower (a : LxDotAttr) : Option (List Nat) :=
  if 3 ≤ a.name_ea.length then some ((a.name_ea.drop 3).map toAsciiLower)
  else none

/-- `LxDotAttr::value`: the slice `&value[LXEA.len()..]` — a panic (`none`)
when the value is shorter than the 4-byte `lxea` marker. -/
def LxDotAttr.value_stripped (a : LxDotAttr) : Option (List Nat) :=
  if 4 ≤ a.value.get.length then some (a.value.get.drop 4) else none

structure WslfsParsed where
  lxuid : Option (Cow Nat)
  lxgid : Option (Cow Nat)
  lxmod : Option (Cow Nat)
  lxdev : Option (Cow Lxdev)
  lx_dot_ea : List LxDotAttr
  reparse_tag : Option StModeType
  symlink : Option (List Nat)
deriving Repr, DecidableEq

instance : Inhabited WslfsParsed := ⟨⟨none, none, none, none, [], none, none⟩⟩

def WslfsParsed.maybe (p : WslfsParsed) : Bool :=
  p.lxuid.isSome || p.lxgid.isSome || p.lxmod.isSome || p.lxdev.isSome ||
    p.reparse_tag.isSome || !p.lx_dot_ea.isEmpty

def WslfsParsed.get_uid (p : WslfsParsed) : Option Nat := p.lxuid.map Cow.get
def WslfsParsed.get_gid (p : WslfsParsed) : Option Nat := p.lxgid.map Cow.get
def WslfsParsed.get_mode (p : WslfsParsed) : Option Nat := p.lxmod.map Cow.get

def WslfsParsed.get_dev_major (p : WslfsParsed) : Option Nat :=
  p.lxdev.map (fun d => (Cow.get d).major)

def WslfsParsed.get_dev_minor (p : WslfsParsed) : Option Nat :=
  p.lxdev.map (fun d => (Cow.get d).minor)

/-- One step of `WslfsParsed::load`'s entry loop.  `get_ea::<u32>` /
`get_ea::<Lxdev>` assert the value is large enough (`none` on failure) and
copy it out as an owned scalar. -/
def wslfsLoadStep (p : WslfsParsed) (e : EaEntry) : Option WslfsParsed :=
  if e.name = LXUID then
    if 4 ≤ e.value.length then
      some { p with lxuid := some (.owned (le32At e.value 0)) }
    else none
  else if e.name = LXGID then
    if 4 ≤ e.value.length then
      some { p with lxgid := some (.owned (le32At e.value 0)) }
    else none
  else if e.name = LXMOD then
    if 4 ≤ e.value.length then
      some { p with lxmod := some (.owned (le32At e.value 0)) }
    else none
  else if e.name = LXDEV then
    if 8 ≤ e.value.length then
      some { p with lxdev := some (.owned ⟨le32At e.value 0, le32At e.value 4⟩) }
    else none
  else if LX_DOT.isPrefixOf e.name then
    some { p with lx_dot_ea :=
      p.lx_dot_ea ++ [⟨e.flags, .owned e.name, .owned e.value⟩] }
  else some p

/-- `WslfsParsed::load`: the reparse tag is mapped through `from_tag_id`; a
symlink target (`symlinkRead`, the external reparse-point read) is kept only
for the symlink tag. -/
def WslfsParsed.load (reparse_tag : Option Nat) (symlinkRead : Option (List Nat))
    (ea_parsed : Option (List EaEntry)) : Option WslfsParsed :=
  let p0 : WslfsParsed :=
    { lxuid := none, lxgid := none, lxmod := none, lxdev := none, lx_dot_ea := []
      reparse_tag := reparse_tag.map StModeType.from_tag_id
      symlink := if reparse_tag = some IO_REPARSE_TAG_LX_SYMLINK then symlinkRead
        else none }
  match ea_parsed with
  | none => some p0
  | some es => es.foldlM wslfsLoadStep p0

/-- One `if let Some(Cow::Owned(ref x))` piece of `WslfsParsed::save`: the
entry built from the scalar when it is owned, nothing otherwise. -/
def savedScalar {α : Type} (o : Option (Cow α)) (mk : α → EaEntry) :
    List EaEntry :=
  match o with
  | some (.owned v) => [mk v]
  | _ => []

/-- `WslfsParsed::save`: entries handed to `EaOut` (scalars whose `Cow` is
owned, then every owned-valued `LX.` attribute) and the updated state (an
owned empty value drops the attribute from the in-memory list). -/
def WslfsParsed.save (p : WslfsParsed) : List EaEntry × WslfsParsed :=
  let e1 := savedScalar p.lxuid
    (fun v => { flags := 0, name := LXUID, value := le32 v })
  let e2 := savedScalar p.lxgid
    (fun v => { flags := 0, name := LXGID, value := le32 v })
  let e3 := savedScalar p.lxmod
    (fun v => { flags := 0, name := LXMOD, value := le32 v })
  let e4 := savedScalar p.lxdev
    (fun d => { flags := 0, name := LXDEV, value := le32 d.major ++ le32 d.minor })
  let eattrs : List EaEntry := (p.lx_dot_ea.filter (fun a => a.value.isOwned)).map
    (fun a => { flags := a.flags, name := a.name.get, value := a.value.get })
  let kept := p.lx_dot_ea.filter (fun a =>
    match a.value with
    | .owned v => !v.isEmpty
    | .borrowed _ => true)
  (e1 ++ e2 ++ e3 ++ e4 ++ eattrs, { p with lx_dot_ea := kept })

/-! ### The migration (`downgrade` in `main.rs`) -/

inductive DowngradeResult where
  /-- `lxfs.maybe()` already holds: report and leave the file untouched. -/
  | alreadyLxfs
  /-- An `LX.` attribute whose name or value is shorter than its fixed
  prefix: the slice in `LxDotAttr::name`/`value` panics, aborting the run
  before any write is issued. -/
  | panicked
  /-- The three effects: one EA write (these entries, encoded by `EaOut`),
  an optional reparse-point delete (tag id), an optional content write. -/
  | performed (eaEntries : List EaEntry) (reparseDelete : Option Nat)
      (contentWrite : Option (List Nat))
deriving Repr, DecidableEq

/-- The `for dot_ea in &wslfs.lx_dot_ea` loop of `downgrade`: each
attribute's `name()` and `value()` slices feed `LxxattrOut::add`; a panic in
either slice aborts the whole run (`none`). -/
def lxxattrPairs : List LxDotAttr → Option (List (List Nat × List Nat))
  | [] => some []
  | a :: rest =>
    match a.name_lower, a.value_stripped, lxxattrPairs rest with
    | some n, some v, some ps => some ((n, v) :: ps)
    | _, _, _ => none

def downgrade (basic : Option FILE_BASIC_INFORMATION) (wslfs : WslfsParsed)
    (lxfs : LxfsParsed) : DowngradeResult :=
  if lxfs.maybe then .alreadyLxfs
  else
    match lxxattrPairs wslfs.lx_dot_ea with
    | none => .panicked
    | some pairs =>
      let ea_to_remove := [LXUID, LXGID, LXMOD, LXDEV] ++
        wslfs.lx_dot_ea.map LxDotAttr.name_ea
      let lxattrb0 := EaLxattrbV1.new basic
      let lxattrb := { lxattrb0 with
        st_uid := (wslfs.get_uid).getD 0
        st_gid := (wslfs.get_gid).getD 0
        st_mode := (wslfs.get_mode).getD 0
        st_rdev := make_dev ((wslfs.get_dev_major).getD 0) ((wslfs.get_dev_minor).getD 0) }
      let lxxattr_buf := encodeLxxattr pairs
      let entries := [⟨0, LXATTRB, lxattrb.bytes⟩, ⟨0, LXXATTR, lxxattr_buf⟩] ++
        ea_to_remove.map (fun n => (⟨0, n, []⟩ : EaEntry))
      let rdel := match wslfs.reparse_tag with
        | some t => if t ≠ .UNKNOWN then some t.tag_id else none
        | none => none
      .performed entries rdel wslfs.symlink

/-! ### External I/O models (`ntfs_io.rs`) -/

/-- `read_ea_all`: queries the EA size first; a zero size is reported as the
absence of any EA buffer (`Ok(None)`), otherwise the buffer is read. -/
def read_ea_all (eaSize : Nat) (buf : List Nat) : Option (List Nat) :=
  if eaSize = 0 then none else some buf

def ERROR_MORE_DATA : Nat := 234

/-- Behavior of one `FSCTL_GET_REPARSE_POINT` query at a given buffer size:
success with the returned bytes, `ERROR_MORE_DATA` with the partially filled
header, or another error code. -/
inductive QueryResult where
  | ok (data : List Nat)
  | more (hdr : List Nat)
  | err (code : Nat)
deriving Repr, DecidableEq

/-- `read_reparse_point`: initial buffer of `size_of::<REPARSE_GUID_DATA_BUFFER>()
+ 36 = 64` bytes; on `ERROR_MORE_DATA` re-read the declared data length from
the first response and retry exactly once with `28 + data_len`; any other
failure (or a second failure) is fatal.  The second component counts the
queries issued. -/
def read_reparse_point (query : Nat → QueryResult) : Except Nat (List Nat) × Nat :=
  let buf_size := 28 + 36
  match query buf_size with
  | .ok data => (.ok data, 1)
  | .more hdr =>
    let reparse_data_len := le16At hdr 4
    let buf_size2 := 28 + reparse_data_len
    match query buf_size2 with
    | .ok data => (.ok data, 2)
    | .more _ => (.error ERROR_MORE_DATA, 2)
    | .err e => (.error e, 2)
  | .err e => (.error e, 1)

/-! ### Codec selection in `open_to_change` (`main.rs`) -/

inductive FsType where
  | Lxfs
  | Wslfs
deriving DecidableEq, Repr

inductive CodecChoice where
  | chosen (t : FsType)
  | ambiguous
  | noScheme
deriving DecidableEq, Repr

/-- The fs-type dispatch of `open_to_change`: an explicit `--fs_type` argument
wins, then an arg-supplied distro's fs type, and only then the `maybe()`
results — both true is refused as ambiguous, both false as scheme-less. -/
def open_to_change_select (arg_fs_type : Option FsType)
    (arg_distro_fs_type : Option FsType) (wslfsMaybe lxfsMaybe : Bool) :
    CodecChoice :=
  match arg_fs_type with
  | some t => .chosen t
  | none =>
    match arg_distro_fs_type with
    | some t => .chosen t
    | none =>
      if wslfsMaybe && lxfsMaybe then .ambiguous
      else if wslfsMaybe then .chosen .Wslfs
      else if lxfsMaybe then .chosen .Lxfs
      else .noScheme

/-! ### Load invariants -/

/-- A name claimed by the Scattered scheme: one of the four scalar names or an
`LX.`-prefixed attribute name. -/
def scatteredName (n : List Nat) : Prop :=
  n = LXUID ∨ n = LXGID ∨ n = LXMOD ∨ n = LXDEV ∨ LX_DOT.isPrefixOf n

instance (n : List Nat) : Decidable (scatteredName n) := by
  unfold scatteredName
  infer_instance

/-- What one `WslfsParsed::load` step does to the state: presence of each
field grows exactly with the matching entry name, everything stored is owned,
and the reparse fields are untouched. -/
theorem wslfsLoadStep_some (p0 : WslfsParsed) (e : EaEntry) (p1 : WslfsParsed)
    (h : wslfsLoadStep p0 e = some p1) :
    (p1.lxuid.isSome ↔ (p0.lxuid.isSome ∨ e.name = LXUID)) ∧
    (p1.lxgid.isSome ↔ (p0.lxgid.isSome ∨ e.name = LXGID)) ∧
    (p1.lxmod.isSome ↔ (p0.lxmod.isSome ∨ e.name = LXMOD)) ∧
    (p1.lxdev.isSome ↔ (p0.lxdev.isSome ∨ e.name = LXDEV)) ∧
    (p1.lx_dot_ea ≠ [] ↔ (p0.lx_dot_ea ≠ [] ∨ LX_DOT.isPrefixOf e.name)) ∧
    p1.reparse_tag = p0.reparse_tag ∧ p1.symlink = p0.symlink ∧
    ((∀ v, p0.lxuid = some v → v.isOwned = true) →
      ∀ v, p1.lxuid = some v → v.isOwned = true) ∧
    ((∀ v, p0.lxgid = some v → v.isOwned = true) →
      ∀ v, p1.lxgid = some v → v.isOwned = true) ∧
    ((∀ v, p0.lxmod = some v → v.isOwned = true) →
      ∀ v, p1.lxmod = some v → v.isOwned = true) ∧
    ((∀ v, p0.lxdev = some v → v.isOwned = true) →
      ∀ v, p1.lxdev = some v → v.isOwned = true) ∧
    ((∀ a ∈ p0.lx_dot_ea, a.value.isOwned = true) →
      ∀ a ∈ p1.lx_dot_ea, a.value.isOwned = true) := by
  have dUG : LXUID ≠ LXGID := by decide
  have dUM : LXUID ≠ LXMOD := by decide
  have dUD : LXUID ≠ LXDEV := by decide
  have dGM : LXGID ≠ LXMOD := by decide
  have dGD : LXGID ≠ LXDEV := by decide
  have dMD : LXMOD ≠ LXDEV := by decide
  have pU : LX_DOT.isPrefixOf LXUID = false := by decide
  have pG : LX_DOT.isPrefixOf LXGID = false := by decide
  have pM : LX_DOT.isPrefixOf LXMOD = false := by decide
  have pD : LX_DOT.isPrefixOf LXDEV = false := by decide
  unfold wslfsLoadStep at h
  split_ifs at h with h1 h2 h3 h4 h5 h6 h7 h8 h9 <;>
    first
    | (obtain rfl : _ = p1 := Option.some_inj.mp h
       refine ⟨?_, ?_, ?_, ?_, ?_, rfl, rfl, ?_, ?_, ?_, ?_, ?_⟩ <;>
         first
         | (simp_all [Cow.isOwned]; done)
         | (intro hall a ha
            rcases List.mem_append.mp ha with ha' | ha'
            · exact hall a ha'
            · simp only [List.mem_singleton] at ha'
              subst ha'
              rfl))
    | simp at h

/-- Fold-level load invariant for the Scattered codec: after a successful
load over `es`, each field is present exactly when a matching entry occurred,
all stored values are owned, and the reparse fields are those of the initial
state. -/
theorem wslfs_fold_inv (es : List EaEntry) :
    ∀ (p0 p : WslfsParsed), es.foldlM wslfsLoadStep p0 = some p →
      (p.lxuid.isSome ↔ (p0.lxuid.isSome ∨ ∃ e ∈ es, e.name = LXUID)) ∧
      (p.lxgid.isSome ↔ (p0.lxgid.isSome ∨ ∃ e ∈ es, e.name = LXGID)) ∧
      (p.lxmod.isSome ↔ (p0.lxmod.isSome ∨ ∃ e ∈ es, e.name = LXMOD)) ∧
      (p.lxdev.isSome ↔ (p0.lxdev.isSome ∨ ∃ e ∈ es, e.name = LXDEV)) ∧
      (p.lx_dot_ea ≠ [] ↔ (p0.lx_dot_ea ≠ [] ∨ ∃ e ∈ es, LX_DOT.isPrefixOf e.name)) ∧
      p.reparse_tag = p0.reparse_tag ∧ p.symlink = p0.symlink ∧
      ((∀ v, p0.lxuid = some v → v.isOwned = true) →
        ∀ v, p.lxuid = some v → v.isOwned = true) ∧
      ((∀ v, p0.lxgid = some v → v.isOwned = true) →
        ∀ v, p.lxgid = some v → v.isOwned = true) ∧
      ((∀ v, p0.lxmod = some v → v.isOwned = true) →
        ∀ v, p.lxmod = some v → v.isOwned = true) ∧
      ((∀ v, p0.lxdev = some v → v.isOwned = true) →
        ∀ v, p.lxdev = some v → v.isOwned = true) ∧
      ((∀ a ∈ p0.lx_dot_ea, a.value.isOwned = true) →
        ∀ a ∈ p.lx_dot_ea, a.value.isOwned = true) := by
  induction es with
  | nil =>
    intro p0 p h
    simp only [List.foldlM_nil, Option.pure_def, Option.some_inj] at h
    subst h
    simp
  | cons e rest ih =>
    intro p0 p h
    rw [List.foldlM_cons] at h
    cases hstep : wslfsLoadStep p0 e with
    | none => rw [hstep] at h; simp at h
    | some p1 =>
      rw [hstep] at h
      simp only [Option.bind_eq_bind, Option.some_bind] at h
      obtain ⟨s1, s2, s3, s4, s5, s6, s7, o1, o2, o3, o4, o5⟩ :=
        wslfsLoadStep_some p0 e p1 hstep
      obtain ⟨t1, t2, t3, t4, t5, t6, t7, q1, q2, q3, q4, q5⟩ := ih p1 p h
      refine ⟨?_, ?_, ?_, ?_, ?_, by rw [t6, s6], by rw [t7, s7],
        fun hp => q1 (o1 hp), fun hp => q2 (o2 hp), fun hp => q3 (o3 hp),
        fun hp => q4 (o4 hp), fun hp => q5 (o5 hp)⟩ <;>
      · first
        | rw [t1, s1]
        | rw [t2, s2]
        | rw [t3, s3]
        | rw [t4, s4]
        | rw [t5, s5]
        simp only [List.mem_cons]
        constructor
        · rintro ((hp | he) | ⟨x, hx, hn⟩)
          · exact Or.inl hp
          · exact Or.inr ⟨e, Or.inl rfl, he⟩
          · exact Or.inr ⟨x, Or.inr hx, hn⟩
        · rintro (hp | ⟨x, (rfl | hx), hn⟩)
          · exact Or.inl (Or.inl hp)
          · exact Or.inl (Or.inr hn)
          · exact Or.inr ⟨x, hx, hn⟩

/-- What one `LxfsParsed::load` step does to the state: the fixed record and
mini-chain appear exactly with their entry names, the record stays borrowed,
and the basic file info is untouched. -/
theorem lxfsLoadStep_some (fc : List Nat) (p0 : LxfsParsed) (e : EaEntry)
    (p1 : LxfsParsed) (h : lxfsLoadStep fc p0 e = some p1) :
    (p1.lxattrb.isSome ↔ (p0.lxattrb.isSome ∨ e.name = LXATTRB)) ∧
    (p1.lxxattr.isSome ↔ (p0.lxxattr.isSome ∨ e.name = LXXATTR)) ∧
    p1.basic_file_info = p0.basic_file_info ∧
    ((∀ v, p0.lxattrb = some v → v.isOwned = false) →
      ∀ v, p1.lxattrb = some v → v.isOwned = false) := by
  have dAB : LXATTRB ≠ LXXATTR := by decide
  unfold lxfsLoadStep at h
  by_cases h1 : e.name = LXATTRB
  · rw [if_pos h1] at h
    cases hdec : decodeLxattrb e.value with
    | none => rw [hdec] at h; simp at h
    | some r =>
      rw [hdec] at h
      dsimp only at h
      by_cases h2 : StModeType.from_mode r.st_mode = .LNK
      · rw [if_pos h2] at h
        obtain rfl : _ = p1 := Option.some_inj.mp h
        refine ⟨by simp [h1], by simp_all, rfl, ?_⟩
        intro _ v hv
        obtain rfl : Cow.borrowed r = v := Option.some_inj.mp hv
        rfl
      · rw [if_neg h2] at h
        obtain rfl : _ = p1 := Option.some_inj.mp h
        refine ⟨by simp [h1], by simp_all, rfl, ?_⟩
        intro _ v hv
        obtain rfl : Cow.borrowed r = v := Option.some_inj.mp hv
        rfl
  · rw [if_neg h1] at h
    by_cases h2 : e.name = LXXATTR
    · rw [if_pos h2] at h
      cases hx : parse_lxxattr e.value with
      | none => rw [hx] at h; simp at h
      | some xs =>
        rw [hx] at h
        obtain rfl : _ = p1 := Option.some_inj.mp h
        refine ⟨by simp_all, by simp [h2], rfl, fun hp => hp⟩
    · rw [if_neg h2] at h
      obtain rfl : _ = p1 := Option.some_inj.mp h
      refine ⟨by simp_all, by simp_all, rfl, fun hp => hp⟩

/-- Fold-level load invariant for the Compact codec. -/
theorem lxfs_fold_inv (fc : List Nat) (es : List EaEntry) :
    ∀ (p0 p : LxfsParsed), es.foldlM (lxfsLoadStep fc) p0 = some p →
      (p.lxattrb.isSome ↔ (p0.lxattrb.isSome ∨ ∃ e ∈ es, e.name = LXATTRB)) ∧
      (p.lxxattr.isSome ↔ (p0.lxxattr.isSome ∨ ∃ e ∈ es, e.name = LXXATTR)) ∧
      p.basic_file_info = p0.basic_file_info ∧
      ((∀ v, p0.lxattrb = some v → v.isOwned = false) →
        ∀ v, p.lxattrb = some v → v.isOwned = false) := by
  induction es with
  | nil =>
    intro p0 p h
    simp only [List.foldlM_nil, Option.pure_def, Option.some_inj] at h
    subst h
    simp
  | cons e rest ih =>
    intro p0 p h
    rw [List.foldlM_cons] at h
    cases hstep : lxfsLoadStep fc p0 e with
    | none => rw [hstep] at h; simp at h
    | some p1 =>
      rw [hstep] at h
      simp only [Option.bind_eq_bind, Option.some_bind] at h
      obtain ⟨s1, s2, s3, s4⟩ := lxfsLoadStep_some fc p0 e p1 hstep
      obtain ⟨t1, t2, t3, t4⟩ := ih p1 p h
      refine ⟨?_, ?_, by rw [t3, s3], fun hp => t4 (s4 hp)⟩ <;>
      · first
        | rw [t1, s1]
        | rw [t2, s2]
        simp only [List.mem_cons]
        constructor
        · rintro ((hp | he) | ⟨x, hx, hn⟩)
          · exact Or.inl hp
          · exact Or.inr ⟨e, Or.inl rfl, he⟩
          · exact Or.inr ⟨x, Or.inr hx, hn⟩
        · rintro (hp | ⟨x, (rfl | hx), hn⟩)
          · exact Or.inl (Or.inl hp)
          · exact Or.inl (Or.inr hn)
          · exact Or.inr ⟨x, hx, hn⟩

theorem parseEaLoop_ne_nil (fuel : Nat) :
    ∀ (buf : List Nat) (pos : Nat) (es : List EaEntry),
      parseEaLoop fuel buf pos = some es → es ≠ [] := by
  induction fuel with
  | zero => intro buf pos es h; simp [parseEaLoop] at h
  | succ f ih =>
    intro buf pos es h
    simp only [parseEaLoop] at h
    by_cases c1 : pos + 12 ≤ buf.length
    · rw [if_pos c1] at h
      by_cases c2 : pos + ea_entry_size_inner (byteAt buf (pos + 5))
          (le16At buf (pos + 6)) ≤ buf.length
      · rw [if_pos c2] at h
        by_cases c3 : le32At buf pos = 0
        · rw [if_pos c3] at h
          obtain rfl : _ = es := Option.some_inj.mp h
          simp
        · rw [if_neg c3] at h
          cases hrec : parseEaLoop f buf (pos + le32At buf pos) with
          | none => rw [hrec] at h; simp at h
          | some rest =>
            rw [hrec] at h
            obtain rfl : _ = es := Option.some_inj.mp h
            simp
      · rw [if_neg c2] at h
        simp at h
    · rw [if_neg c1] at h
      simp at h

/-! ### Claim theorems -/

/-- C10: a zero-length EA buffer, and any buffer shorter than the 12-byte
fixed record header, is a hard decode failure; no buffer decodes to the empty
entry sequence; the zero-EAs state is representable only as the read
capability returning no buffer (`read_ea_all` yields `none` exactly for a
zero EA size). -/
theorem C10_empty_buffer_rejected :
    parse_ea ([] : List Nat) = none ∧
    (∀ buf : List Nat, buf.length < 12 → parse_ea buf = none) ∧
    (∀ (buf : List Nat) (es : List EaEntry), parse_ea buf = some es → es ≠ []) ∧
    (∀ (eaSize : Nat) (buf : List Nat), read_ea_all eaSize buf = none ↔ eaSize = 0) := by
  refine ⟨by decide, ?_, ?_, ?_⟩
  · intro buf hlen
    unfold parse_ea
    simp only [parseEaLoop]
    rw [if_neg (by omega)]
  · intro buf es h
    exact parseEaLoop_ne_nil _ buf 0 es h
  · intro eaSize buf
    unfold read_ea_all
    split <;> simp_all

/-- Witness for C10 at concrete inputs: an 11-byte truncated buffer fails to
decode, and a zero EA size reads as the absence of a buffer. -/
theorem C10_witness :
    parse_ea [0, 0, 0, 0, 1, 1, 0, 0, 65, 0, 0] = none ∧
    read_ea_all 0 [1, 2, 3] = none :=
  ⟨C10_empty_buffer_rejected.2.1 [0, 0, 0, 0, 1, 1, 0, 0, 65, 0, 0] (by decide),
    (C10_empty_buffer_rejected.2.2.2 0 [1, 2, 3]).mpr rfl⟩

/-- C3: EA-chain decoding fails exactly when the walk of the declared chain
meets a record whose 12-byte header or whose computed end
(`ea_entry_size_inner` from the declared lengths) exceeds the buffer bound
(there is no silent partial chain), and on success every decoded name and
value is a contiguous in-bounds slice of the buffer, so no read goes outside
it.  (Declared lengths cannot overflow: the size computation is exact
arithmetic in `usize` range, at most 9 + 255 + 65535.) -/
theorem C3_bounds_safety :
    ∀ buf : List Nat,
      (parse_ea buf = none ↔ chainBad buf = true) ∧
      (∀ es, parse_ea buf = some es → ∀ e ∈ es,
        (∃ p l, p + l ≤ buf.length ∧ e.name = extract buf p l) ∧
        (∃ p l, p + l ≤ buf.length ∧ e.value = extract buf p l)) := by
  intro buf
  exact ⟨parseEaLoop_none_iff (buf.length + 1) buf 0,
    fun es h => parseEaLoop_slices (buf.length + 1) buf 0 es h⟩

/-- Witness for C3: a buffer whose single record declares a size reaching one
byte past the end is flagged bad and fails to decode; a well-formed one
decodes with its name a slice of the buffer. -/
theorem C3_witness :
    chainBad [0, 0, 0, 0, 1, 1, 0, 0, 65, 0, 0] = true ∧
    parse_ea [0, 0, 0, 0, 1, 1, 0, 0, 65, 0, 0] = none := by
  have h := (C3_bounds_safety [0, 0, 0, 0, 1, 1, 0, 0, 65, 0, 0]).1
  exact ⟨by decide, h.mpr (by decide)⟩

/-- C2 as stated is false: the encoder (`EaOut::add_entry`) writes `Flags = 0`
unconditionally, so a decodable buffer carrying a non-zero flags byte does not
survive `Decode ∘ Encode ∘ Decode` unchanged. -/
theorem C2_counterexample :
    parse_ea [0, 0, 0, 0, 1, 1, 0, 0, 65, 0, 0, 0]
      = some [{ flags := 1, name := [65], value := [] }] ∧
    parse_ea (encodeEa [{ flags := 1, name := [65], value := [] }])
      ≠ some [{ flags := 1, name := [65], value := [] }] := by
  decide

/-- C2 (amended): for every byte buffer that decodes without error,
re-encoding the decoded entries and decoding again yields the same non-empty
entry sequence with order, names and values preserved and every flags byte
normalized to 0; the empty sequence has no decodable encoding. -/
theorem C2_roundtrip :
    ∀ (buf : List Nat) (es : List EaEntry),
      (∀ x ∈ buf, x < 256) → parse_ea buf = some es →
      es ≠ [] ∧
      parse_ea (encodeEa es) = some (es.map clearFlags) ∧
      (es.map clearFlags).map (fun e => (e.name, e.value))
        = es.map (fun e => (e.name, e.value)) := by
  intro buf es hb h
  obtain ⟨hne, hwf⟩ := parseEaLoop_wf (buf.length + 1) buf 0 es hb h
  obtain ⟨b, rest, rfl⟩ : ∃ b rest, es = b :: rest := by
    cases es with
    | nil => exact absurd rfl hne
    | cons b rest => exact ⟨b, rest, rfl⟩
  refine ⟨hne, parse_ea_encodeEa b rest hwf, ?_⟩
  simp [clearFlags]

/-- Field presence and ownedness after a successful Scattered load. -/
theorem wslfs_load_fields (rt : Option Nat) (sr : Option (List Nat))
    (es : List EaEntry) (w : WslfsParsed)
    (h : WslfsParsed.load rt sr (some es) = some w) :
    (w.lxuid.isSome ↔ ∃ e ∈ es, e.name = LXUID) ∧
    (w.lxgid.isSome ↔ ∃ e ∈ es, e.name = LXGID) ∧
    (w.lxmod.isSome ↔ ∃ e ∈ es, e.name = LXMOD) ∧
    (w.lxdev.isSome ↔ ∃ e ∈ es, e.name = LXDEV) ∧
    (w.lx_dot_ea ≠ [] ↔ ∃ e ∈ es, LX_DOT.isPrefixOf e.name) ∧
    (w.reparse_tag.isSome ↔ rt.isSome) ∧
    (∀ v, w.lxuid = some v → v.isOwned = true) ∧
    (∀ v, w.lxgid = some v → v.isOwned = true) ∧
    (∀ v, w.lxmod = some v → v.isOwned = true) ∧
    (∀ v, w.lxdev = some v → v.isOwned = true) ∧
    (∀ a ∈ w.lx_dot_ea, a.value.isOwned = true) := by
  unfold WslfsParsed.load at h
  dsimp only at h
  obtain ⟨i1, i2, i3, i4, i5, i6, i7, o1, o2, o3, o4, o5⟩ :=
    wslfs_fold_inv es _ w h
  simp only [Option.isSome_none, Bool.false_eq_true, false_or] at i1 i2 i3 i4
  refine ⟨i1, i2, i3, i4, ?_, ?_, fun v hv => o1 (by simp) v hv,
    fun v hv => o2 (by simp) v hv, fun v hv => o3 (by simp) v hv,
    fun v hv => o4 (by simp) v hv, fun a ha => o5 (by simp) a ha⟩
  · rw [i5]
    simp
  · rw [i6]
    simp [Option.isSome_map]

/-- Field presence and borrowedness after a successful Compact load. -/
theorem lxfs_load_fields (fc : List Nat) (fbi : Option FILE_BASIC_INFORMATION)
    (es : List EaEntry) (lx : LxfsParsed)
    (h : LxfsParsed.load fc fbi (some es) = some lx) :
    (lx.lxattrb.isSome ↔ ∃ e ∈ es, e.name = LXATTRB) ∧
    (lx.lxxattr.isSome ↔ ∃ e ∈ es, e.name = LXXATTR) ∧
    lx.basic_file_info = fbi ∧
    (∀ v, lx.lxattrb = some v → v.isOwned = false) := by
  unfold LxfsParsed.load at h
  dsimp only at h
  obtain ⟨i1, i2, i3, i4⟩ := lxfs_fold_inv fc es _ lx h
  simp only [Option.isSome_none, Bool.false_eq_true, false_or] at i1 i2
  exact ⟨i1, i2, i3, fun v hv => i4 (by simp) v hv⟩

/-- C6 as stated is false: an entry list holding only an `LXXATTR` entry has
no `LXATTRB` entry, yet the Compact codec's `maybe()` is true (it also tests
`lxxattr`). -/
theorem C6_counterexample :
    (LxfsParsed.load [] none
        (some [{ flags := 0, name := LXXATTR
                 value := [0, 0, 1, 0, 0, 0, 0, 0, 0, 0, 1, 65, 0] }])).map
      LxfsParsed.maybe = some true ∧
    [({ flags := 0, name := LXXATTR
        value := [0, 0, 1, 0, 0, 0, 0, 0, 0, 0, 1, 65, 0] } : EaEntry)].map
      (fun e => e.name) = [LXXATTR] ∧
    LXXATTR ≠ LXATTRB := by
  decide

/-- C6 (amended): after a successful Compact load, if the entry list has no
`LXATTRB` entry then all five accessors return `none` (never zeroed data);
`maybe()` is false exactly when the list has neither an `LXATTRB` nor an
`LXXATTR` entry. -/
theorem C6_absent_record_accessors :
    ∀ (fc : List Nat) (fbi : Option FILE_BASIC_INFORMATION) (es : List EaEntry)
      (p : LxfsParsed),
      LxfsParsed.load fc fbi (some es) = some p →
      ((∀ e ∈ es, e.name ≠ LXATTRB) →
        p.get_uid = none ∧ p.get_gid = none ∧ p.get_mode = none ∧
        p.get_dev_major = none ∧ p.get_dev_minor = none) ∧
      (p.maybe = false ↔ ∀ e ∈ es, e.name ≠ LXATTRB ∧ e.name ≠ LXXATTR) := by
  intro fc fbi es p h
  obtain ⟨i1, i2, _, _⟩ := lxfs_load_fields fc fbi es p h
  constructor
  · intro hno
    have hnone : p.lxattrb = none := by
      rw [← Option.not_isSome_iff_eq_none, i1]
      rintro ⟨e, he, hn⟩
      exact hno e he hn
    simp [LxfsParsed.get_uid, LxfsParsed.get_gid, LxfsParsed.get_mode,
      LxfsParsed.get_dev_major, LxfsParsed.get_dev_minor, hnone]
  · unfold LxfsParsed.maybe
    rw [Bool.or_eq_false_iff]
    constructor
    · rintro ⟨ha, hx⟩ e he
      constructor
      · intro hn
        have : p.lxattrb.isSome := i1.mpr ⟨e, he, hn⟩
        simp [this] at ha
      · intro hn
        have : p.lxxattr.isSome := i2.mpr ⟨e, he, hn⟩
        simp [this] at hx
    · intro hall
      constructor
      · rw [← Bool.not_eq_true, i1]
        rintro ⟨e, he, hn⟩
        exact (hall e he).1 hn
      · rw [← Bool.not_eq_true, i2]
        rintro ⟨e, he, hn⟩
        exact (hall e he).2 hn

/-- Witness for C6: a list holding one Scattered scalar entry loads to the
empty Compact state, whose accessors all return `none`. -/
theorem C6_witness :
    (⟨none, none, none, none⟩ : LxfsParsed).get_uid = none ∧
    (⟨none, none, none, none⟩ : LxfsParsed).get_gid = none ∧
    (⟨none, none, none, none⟩ : LxfsParsed).get_mode = none ∧
    (⟨none, none, none, none⟩ : LxfsParsed).get_dev_major = none ∧
    (⟨none, none, none, none⟩ : LxfsParsed).get_dev_minor = none :=
  (C6_absent_record_accessors [] none [{ flags := 0, name := LXUID, value := [0, 0, 0, 0] }]
    ⟨none, none, none, none⟩ (by decide)).1 (by decide)

/-- C7: the Scattered codec's `maybe()` is false exactly when none of the four
scalar entries is present, no `LX.`-prefixed entry is present, and the file
carries no reparse tag; a file holding only Compact-scheme entries (and no
reparse tag) reports Scattered false and Compact true, and a file holding only
Scattered-scheme entries reports Compact false and Scattered true. -/
theorem C7_maybe_characterization :
    ∀ (rt : Option Nat) (sr : Option (List Nat)) (fc : List Nat)
      (fbi : Option FILE_BASIC_INFORMATION) (es : List EaEntry)
      (w : WslfsParsed) (lx : LxfsParsed),
      WslfsParsed.load rt sr (some es) = some w →
      LxfsParsed.load fc fbi (some es) = some lx →
      (w.maybe = false ↔ (rt = none ∧ ∀ e ∈ es, ¬scatteredName e.name)) ∧
      ((∀ e ∈ es, e.name = LXATTRB ∨ e.name = LXXATTR) → rt = none → es ≠ [] →
        w.maybe = false ∧ lx.maybe = true) ∧
      ((∀ e ∈ es, scatteredName e.name) → es ≠ [] →
        lx.maybe = false ∧ w.maybe = true) := by
  intro rt sr fc fbi es w lx hw hlx
  obtain ⟨i1, i2, i3, i4, i5, i6, _, _, _, _, _⟩ := wslfs_load_fields rt sr es w hw
  obtain ⟨j1, j2, _, _⟩ := lxfs_load_fields fc fbi es lx hlx
  have hAne : ¬scatteredName LXATTRB := by decide
  have hXne : ¬scatteredName LXXATTR := by decide
  have hmaybe : w.maybe = false ↔
      (¬w.lxuid.isSome ∧ ¬w.lxgid.isSome ∧ ¬w.lxmod.isSome ∧ ¬w.lxdev.isSome ∧
        ¬w.reparse_tag.isSome ∧ w.lx_dot_ea = []) := by
    unfold WslfsParsed.maybe
    constructor
    · intro hm
      simp only [Bool.or_eq_false_iff] at hm
      obtain ⟨⟨⟨⟨⟨hu, hg⟩, hm'⟩, hd⟩, hr⟩, hl⟩ := hm
      refine ⟨by simp [hu], by simp [hg], by simp [hm'], by simp [hd],
        by simp [hr], by simpa using hl⟩
    · rintro ⟨hu, hg, hm', hd, hr, hl⟩
      simp only [Bool.or_eq_false_iff]
      exact ⟨⟨⟨⟨⟨by simpa using hu, by simpa using hg⟩, by simpa using hm'⟩,
        by simpa using hd⟩, by simpa using hr⟩, by simp [hl]⟩
  have hmain : w.maybe = false ↔ (rt = none ∧ ∀ e ∈ es, ¬scatteredName e.name) := by
    rw [hmaybe]
    constructor
    · rintro ⟨hu, hg, hm', hd, hr, hl⟩
      constructor
      · rw [← Option.not_isSome_iff_eq_none]
        rw [i6] at hr
        exact hr
      · intro e he hs
        rcases hs with hs | hs | hs | hs | hs
        · exact hu (i1.mpr ⟨e, he, hs⟩)
        · exact hg (i2.mpr ⟨e, he, hs⟩)
        · exact hm' (i3.mpr ⟨e, he, hs⟩)
        · exact hd (i4.mpr ⟨e, he, hs⟩)
        · exact absurd (i5.mpr ⟨e, he, hs⟩) (by simp [hl])
    · rintro ⟨hrt, hall⟩
      refine ⟨?_, ?_, ?_, ?_, ?_, ?_⟩
      · rw [i1]
        rintro ⟨e, he, hn⟩
        exact hall e he (Or.inl hn)
      · rw [i2]
        rintro ⟨e, he, hn⟩
        exact hall e he (Or.inr (Or.inl hn))
      · rw [i3]
        rintro ⟨e, he, hn⟩
        exact hall e he (Or.inr (Or.inr (Or.inl hn)))
      · rw [i4]
        rintro ⟨e, he, hn⟩
        exact hall e he (Or.inr (Or.inr (Or.inr (Or.inl hn))))
      · rw [i6, hrt]
        simp
      · by_contra hne
        obtain ⟨e, he, hp⟩ := i5.mp hne
        exact hall e he (Or.inr (Or.inr (Or.inr (Or.inr hp))))
  refine ⟨hmain, ?_, ?_⟩
  · intro hcompact hrt hne
    constructor
    · rw [hmain]
      refine ⟨hrt, fun e he hs => ?_⟩
      rcases hcompact e he with hn | hn <;> rw [hn] at hs
      · exact hAne hs
      · exact hXne hs
    · obtain ⟨e, he⟩ := List.exists_mem_of_ne_nil es hne
      unfold LxfsParsed.maybe
      rcases hcompact e he with hn | hn
      · have : lx.lxattrb.isSome := j1.mpr ⟨e, he, hn⟩
        simp [this]
      · have : lx.lxxattr.isSome := j2.mpr ⟨e, he, hn⟩
        simp [this]
  · intro hscattered hne
    have hAll : ∀ e ∈ es, e.name ≠ LXATTRB ∧ e.name ≠ LXXATTR := by
      intro e he
      have hs := hscattered e he
      constructor
      · intro hn
        rw [hn] at hs
        exact hAne hs
      · intro hn
        rw [hn] at hs
        exact hXne hs
    constructor
    · unfold LxfsParsed.maybe
      have h1 : ¬lx.lxattrb.isSome := by
        rw [j1]
        rintro ⟨e, he, hn⟩
        exact (hAll e he).1 hn
      have h2 : ¬lx.lxxattr.isSome := by
        rw [j2]
        rintro ⟨e, he, hn⟩
        exact (hAll e he).2 hn
      simp only [Bool.or_eq_false_iff]
      exact ⟨by simpa using h1, by simpa using h2⟩
    · obtain ⟨e, he⟩ := List.exists_mem_of_ne_nil es hne
      unfold WslfsParsed.maybe
      rcases hscattered e he with hs | hs | hs | hs | hs
      · have : w.lxuid.isSome := i1.mpr ⟨e, he, hs⟩
        simp [this]
      · have : w.lxgid.isSome := i2.mpr ⟨e, he, hs⟩
        simp [this]
      · have : w.lxmod.isSome := i3.mpr ⟨e, he, hs⟩
        simp [this]
      · have : w.lxdev.isSome := i4.mpr ⟨e, he, hs⟩
        simp [this]
      · have : w.lx_dot_ea ≠ [] := i5.mpr ⟨e, he, hs⟩
        simp only [Bool.or_eq_true]
        right
        simpa using this

/-- Witness for C7: a file with only an `LXATTRB` entry and no reparse tag is
Scattered-false and Compact-true. -/
theorem C7_witness :
    (⟨none, none, none, none, [], none, none⟩ : WslfsParsed).maybe = false ∧
    (⟨some (.borrowed (EaLxattrbV1.new none)), none, none, none⟩ : LxfsParsed).maybe
      = true :=
  (C7_maybe_characterization none none [] none
    [{ flags := 0, name := LXATTRB, value := (EaLxattrbV1.new none).bytes }]
    ⟨none, none, none, none, [], none, none⟩
    ⟨some (.borrowed (EaLxattrbV1.new none)), none, none, none⟩
    (by decide) (by decide)).2.1 (by decide) rfl (by decide)

/-- C4: when the Compact codec already claims the file (`maybe() == true`),
the migration stops as already-migrated without producing any EA write,
reparse-point delete or content write — so a second run is the same no-op. -/
theorem C4_already_migrated_noop :
    ∀ (fbi : Option FILE_BASIC_INFORMATION) (w : WslfsParsed) (lx : LxfsParsed),
      lx.maybe = true → downgrade fbi w lx = .alreadyLxfs := by
  intro fbi w lx h
  unfold downgrade
  rw [if_pos h]

/-- Witness for C4: a file that already carries an `LXATTRB` record. -/
theorem C4_witness :
    downgrade none ⟨none, none, none, none, [], none, none⟩
      ⟨some (.borrowed (EaLxattrbV1.new none)), none, none, none⟩ = .alreadyLxfs :=
  C4_already_migrated_noop none ⟨none, none, none, none, [], none, none⟩
    ⟨some (.borrowed (EaLxattrbV1.new none)), none, none, none⟩ (by decide)

/-- C5 as stated is false: with an explicit `--fs_type` argument the mutation
proceeds on the chosen codec even when both codecs claim the file, and the
migration on a both-claimed file reports already-migrated, not ambiguity. -/
theorem C5_counterexample :
    open_to_change_select (some .Lxfs) none true true = .chosen .Lxfs ∧
    CodecChoice.chosen .Lxfs ≠ .ambiguous ∧
    downgrade none ⟨some (.owned 0), none, none, none, [], none, none⟩
      ⟨some (.borrowed (EaLxattrbV1.new none)), none, none, none⟩ = .alreadyLxfs ∧
    DowngradeResult.alreadyLxfs ≠
      .performed ([] : List EaEntry) (none : Option Nat) (none : Option (List Nat)) := by
  refine ⟨rfl, by decide, ?_, by decide⟩
  decide

/-- C5 (amended): when no fs-type override is supplied (no `--fs_type`
argument and no arg-distro fs type), a file both codecs claim is refused as
ambiguous (no codec chosen, so no mutation happens); an explicit override
bypasses the check, and the migration treats any Compact-claimed file —
including a both-claimed one — as already migrated, performing no write. -/
theorem C5_ambiguous_refusal :
    (∀ wm lxm : Bool, wm = true → lxm = true →
      open_to_change_select none none wm lxm = .ambiguous) ∧
    (∀ (fbi : Option FILE_BASIC_INFORMATION) (w : WslfsParsed) (lx : LxfsParsed),
      w.maybe = true → lx.maybe = true → downgrade fbi w lx = .alreadyLxfs) := by
  constructor
  · rintro _ _ rfl rfl
    rfl
  · intro fbi w lx _ hlx
    unfold downgrade
    rw [if_pos hlx]

/-- Witness for C5 at a concrete both-claimed file. -/
theorem C5_witness :
    open_to_change_select none none true true = .ambiguous ∧
    downgrade none ⟨some (.owned 7), none, none, none, [], none, none⟩
      ⟨some (.borrowed (EaLxattrbV1.new none)), none, none, none⟩ = .alreadyLxfs :=
  ⟨C5_ambiguous_refusal.1 true true rfl rfl,
    C5_ambiguous_refusal.2 none ⟨some (.owned 7), none, none, none, [], none, none⟩
      ⟨some (.borrowed (EaLxattrbV1.new none)), none, none, none⟩
      (by decide) (by decide)⟩

/-- C8 as stated is false: `WslfsParsed::load` materializes every scalar it
finds as an owned copy, so `save` rewrites the `$LXUID` entry even though
nothing was mutated since load. -/
theorem C8_counterexample :
    (WslfsParsed.load none none
        (some [{ flags := 0, name := LXUID, value := le32 1000 }])).map
      (fun w => (WslfsParsed.save w).1.map (fun e => e.name)) = some [LXUID] := by
  decide

/-- Membership in one owned-scalar piece of `WslfsParsed::save`. -/
theorem mem_savedScalar {α : Type} (o : Option (Cow α)) (mk : α → EaEntry)
    (e : EaEntry) :
    e ∈ savedScalar o mk ↔ ∃ v, o = some (Cow.owned v) ∧ e = mk v := by
  rcases o with _ | (v | v) <;> simp [savedScalar]

/-- C8 (amended): for both schemes `save` filters the copy-on-write entries
on ownership — membership in the written entry list is characterized exactly:
the Compact fixed record is written iff its `Cow` is owned, and each Scattered
scalar and `LX.` attribute is written iff its `Cow` is owned — but "owned"
does not coincide with "changed since load": the Compact `save` writes the
`LXXATTR` mini-chain entry whenever the chain is present, re-encoding every
still-borrowed attribute value into the written buffer, and the Scattered
`load` materializes every recognized entry as owned, so `save` rewrites them
all even when nothing was mutated. -/
theorem C8_save_owned_only :
    (∀ (p : LxfsParsed) (e : EaEntry),
      e ∈ (LxfsParsed.save p).1 ↔
        ((∃ r, p.lxattrb = some (Cow.owned r) ∧
            e = { flags := 0, name := LXATTRB, value := r.bytes }) ∨
          (∃ xs, p.lxxattr = some xs ∧
            e = { flags := 0, name := LXXATTR
                  value := encodeLxxattr
                      ((xs.filter (fun a => a.value.isSome)).map
                        (fun a => (a.name.get,
                          match a.value with
                          | some v => v.get
                          | none => []))) }))) ∧
    (∀ (p : WslfsParsed) (e : EaEntry),
      e ∈ (WslfsParsed.save p).1 ↔
        ((∃ v, p.lxuid = some (Cow.owned v) ∧
            e = { flags := 0, name := LXUID, value := le32 v }) ∨
          (∃ v, p.lxgid = some (Cow.owned v) ∧
            e = { flags := 0, name := LXGID, value := le32 v }) ∨
          (∃ v, p.lxmod = some (Cow.owned v) ∧
            e = { flags := 0, name := LXMOD, value := le32 v }) ∨
          (∃ d, p.lxdev = some (Cow.owned d) ∧
            e = { flags := 0, name := LXDEV
                  value := le32 d.major ++ le32 d.minor }) ∨
          (∃ a ∈ p.lx_dot_ea, a.value.isOwned = true ∧
            e = { flags := a.flags, name := a.name.get
                  value := a.value.get }))) ∧
    (∀ (rt : Option Nat) (sr : Option (List Nat)) (es : List EaEntry)
      (w : WslfsParsed),
      WslfsParsed.load rt sr (some es) = some w →
      ((∀ v, w.lxuid = some v → v.isOwned = true) ∧
        ∀ a ∈ w.lx_dot_ea, a.value.isOwned = true)) := by
  refine ⟨?_, ?_, ?_⟩
  · intro p e
    unfold LxfsParsed.save
    rcases p with ⟨ab, ax, sl, bfi⟩
    rcases ab with _ | (r | r) <;> rcases ax with _ | xs <;>
      simp [List.mem_append]
  · intro p e
    unfold WslfsParsed.save
    dsimp only
    simp only [List.mem_append, mem_savedScalar, List.mem_map,
      List.mem_filter, and_assoc]
    constructor
    · rintro ((((h | h) | h) | h) | ⟨a, ha, ho, he⟩)
      · exact Or.inl h
      · exact Or.inr (Or.inl h)
      · exact Or.inr (Or.inr (Or.inl h))
      · exact Or.inr (Or.inr (Or.inr (Or.inl h)))
      · exact Or.inr (Or.inr (Or.inr (Or.inr ⟨a, ha, ho, he.symm⟩)))
    · rintro (h | h | h | h | ⟨a, ha, ho, he⟩)
      · exact Or.inl (Or.inl (Or.inl (Or.inl h)))
      · exact Or.inl (Or.inl (Or.inl (Or.inr h)))
      · exact Or.inl (Or.inl (Or.inr h))
      · exact Or.inl (Or.inr h)
      · exact Or.inr ⟨a, ha, ho, he.symm⟩
  · intro rt sr es w h
    obtain ⟨_, _, _, _, _, _, o1, _, _, _, o5⟩ := wslfs_load_fields rt sr es w h
    exact ⟨o1, o5⟩

/-- Witness for C8: an owned uid's `$LXUID` entry is in the saved list; a
Compact state whose fixed record is still borrowed but whose mini-chain holds
one borrowed, unmutated attribute writes the re-encoded `LXXATTR` entry; and
the scalar a concrete Scattered load produces is owned. -/
theorem C8_witness :
    (({ flags := 0, name := LXUID, value := le32 1000 } : EaEntry) ∈
      (WslfsParsed.save
        ⟨some (.owned 1000), none, none, none, [], none, none⟩).1) ∧
    (({ flags := 0, name := LXXATTR,
        value := encodeLxxattr [([97], [98])] } : EaEntry) ∈
      (LxfsParsed.save
        ⟨some (.borrowed (EaLxattrbV1.new none)),
          some [{ name := .borrowed [97], value := some (.borrowed [98]) }],
          none, none⟩).1) ∧
    (Cow.owned 1000).isOwned = true :=
  ⟨(C8_save_owned_only.2.1
      ⟨some (.owned 1000), none, none, none, [], none, none⟩
      { flags := 0, name := LXUID, value := le32 1000 }).mpr
      (Or.inl ⟨1000, rfl, rfl⟩),
    (C8_save_owned_only.1
      ⟨some (.borrowed (EaLxattrbV1.new none)),
        some [{ name := .borrowed [97], value := some (.borrowed [98]) }],
        none, none⟩
      { flags := 0, name := LXXATTR, value := encodeLxxattr [([97], [98])] }).mpr
      (Or.inr ⟨[{ name := .borrowed [97], value := some (.borrowed [98]) }],
        rfl, rfl⟩),
    (C8_save_owned_only.2.2 none none
      [{ flags := 0, name := LXUID, value := le32 1000 }]
      ⟨some (.owned 1000), none, none, none, [], none, none⟩
      (by decide)).1 (.owned 1000) rfl⟩

theorem byteAt_take (l : List Nat) (n i : Nat) (h : i < n) :
    byteAt (l.take n) i = byteAt l i := by
  unfold byteAt
  rw [List.getD_eq_getElem?_getD, List.getD_eq_getElem?_getD,
    List.getElem?_take_of_lt h]

/-- C9: the reparse-point read starts with the fixed 64-byte buffer
(`size_of::<REPARSE_GUID_DATA_BUFFER>() + 36`); on `ERROR_MORE_DATA` it
retries exactly once with a buffer sized from the first response's declared
data length (`28 + ReparseDataLength`), after which a payload too long for
the initial buffer is returned fully by an honestly-behaving device; any
other failure — including a failure of the retry — is fatal with no further
retries. -/
theorem C9_reparse_retry :
    ∀ query : Nat → QueryResult,
      (∀ data, query 64 = .ok data → read_reparse_point query = (.ok data, 1)) ∧
      (∀ hdr data, query 64 = .more hdr → query (28 + le16At hdr 4) = .ok data →
        read_reparse_point query = (.ok data, 2)) ∧
      (∀ hdr e, query 64 = .more hdr → query (28 + le16At hdr 4) = .err e →
        read_reparse_point query = (.error e, 2)) ∧
      (∀ hdr hdr2, query 64 = .more hdr → query (28 + le16At hdr 4) = .more hdr2 →
        read_reparse_point query = (.error ERROR_MORE_DATA, 2)) ∧
      (∀ e, query 64 = .err e → read_reparse_point query = (.error e, 1)) ∧
      (∀ payload : List Nat, 64 < payload.length →
        payload.length ≤ 28 + le16At payload 4 →
        (∀ n, query n = if payload.length ≤ n then .ok payload
          else .more (payload.take n)) →
        read_reparse_point query = (.ok payload, 2)) := by
  intro query
  have h64 : (28 : Nat) + 36 = 64 := rfl
  refine ⟨?_, ?_, ?_, ?_, ?_, ?_⟩
  · intro data hq
    unfold read_reparse_point
    rw [h64]
    dsimp only
    rw [hq]
  · intro hdr data hq1 hq2
    unfold read_reparse_point
    rw [h64]
    dsimp only
    rw [hq1]
    dsimp only
    rw [hq2]
  · intro hdr e hq1 hq2
    unfold read_reparse_point
    rw [h64]
    dsimp only
    rw [hq1]
    dsimp only
    rw [hq2]
  · intro hdr hdr2 hq1 hq2
    unfold read_reparse_point
    rw [h64]
    dsimp only
    rw [hq1]
    dsimp only
    rw [hq2]
  · intro e hq
    unfold read_reparse_point
    rw [h64]
    dsimp only
    rw [hq]
  · intro payload hlong hfits hdev
    have hq1 : query 64 = .more (payload.take 64) := by
      rw [hdev 64, if_neg (by omega)]
    have hhdr : le16At (payload.take 64) 4 = le16At payload 4 := by
      unfold le16At
      rw [byteAt_take _ _ _ (by omega), byteAt_take _ _ _ (by omega)]
    have hq2 : query (28 + le16At (payload.take 64) 4) = .ok payload := by
      rw [hhdr, hdev _, if_pos hfits]
    unfold read_reparse_point
    rw [h64]
    dsimp only
    rw [hq1]
    dsimp only
    rw [hq2]

/-- Witness for C9: a 100-byte payload (declared data length 92) does not fit
the 64-byte initial buffer but is read fully after exactly one resize retry. -/
theorem C9_witness :
    read_reparse_point (fun n =>
      if ([29, 0, 0, 160] ++ le16 92 ++ [0, 0] ++ List.replicate 92 7).length ≤ n
      then .ok ([29, 0, 0, 160] ++ le16 92 ++ [0, 0] ++ List.replicate 92 7)
      else .more (([29, 0, 0, 160] ++ le16 92 ++ [0, 0] ++
        List.replicate 92 7).take n))
      = (.ok ([29, 0, 0, 160] ++ le16 92 ++ [0, 0] ++ List.replicate 92 7), 2) :=
  (C9_reparse_retry _).2.2.2.2.2
    ([29, 0, 0, 160] ++ le16 92 ++ [0, 0] ++ List.replicate 92 7)
    (by decide) (by decide) (fun n => rfl)

/-- On a list of attributes each carrying the full `LX.` prefix and `lxea`
marker, no slice panics and the loop yields the lower-cased stripped names
paired with the marker-stripped values. -/
theorem lxxattrPairs_eq (l : List LxDotAttr)
    (h : ∀ a ∈ l, 3 ≤ a.name_ea.length ∧ 4 ≤ a.value.get.length) :
    lxxattrPairs l = some (l.map (fun a =>
      ((a.name_ea.drop 3).map toAsciiLower, a.value.get.drop 4))) := by
  induction l with
  | nil => rfl
  | cons a rest ih =>
    obtain ⟨h1, h2⟩ := h a (by simp)
    unfold lxxattrPairs
    rw [ih (fun x hx => h x (by simp [hx]))]
    unfold LxDotAttr.name_lower LxDotAttr.value_stripped
    rw [if_pos h1, if_pos h2]
    rfl

/-- C1 as stated is false: migration lower-cases every `LX.` attribute name
(the on-disk Scattered names are upper-cased ASCII), so the mini-chain entry
for `LX.A` is named `a`, not the prefix-stripped original `A`. -/
theorem C1_counterexample :
    (match downgrade none
        ⟨none, none, none, none,
          [⟨0, .owned [76, 88, 46, 65], .owned [108, 120, 101, 97, 118]⟩],
          none, none⟩
        ⟨none, none, none, none⟩ with
      | .performed entries _ _ => parse_lxxattr (entries.getD 1 ⟨0, [], []⟩).value
      | .alreadyLxfs => none
      | .panicked => none)
      = some [{ name := .borrowed [97], value := some (.borrowed [118]) }] ∧
    ([97] : List Nat) ≠ [65] := by
  constructor
  · decide
  · decide

/-- C1 (amended): migrating a file claimed only by the Scattered codec issues
exactly one EA write whose entries are, in order: an `LXATTRB` record that
decodes back to the Scattered uid, gid and mode (0 for absent fields) with
rdev repacked via `make_dev`; an `LXXATTR` mini-chain with one record per
original `LX.` attribute whose name is the `LX.`-prefix-stripped,
ASCII-lower-cased original and whose value is the original with the 4-byte
`lxea` marker stripped; and empty-valued entries for `$LXUID`, `$LXGID`,
`$LXMOD`, `$LXDEV` and every original `LX.` name — all in that same single
EA-write call. -/
theorem C1_downgrade_write :
    ∀ (fbi : Option FILE_BASIC_INFORMATION) (w : WslfsParsed) (lx : LxfsParsed),
      w.maybe = true → lx.maybe = false →
      (∀ a ∈ w.lx_dot_ea, 3 ≤ a.name_ea.length ∧ 4 ≤ a.value.get.length ∧
        ((a.name_ea.drop 3).map toAsciiLower).length ≤ 255 ∧
        (a.value.get.drop 4).length ≤ 65535) →
      w.get_uid.getD 0 < 4294967296 →
      w.get_gid.getD 0 < 4294967296 →
      w.get_mode.getD 0 < 4294967296 →
      make_dev (w.get_dev_major.getD 0) (w.get_dev_minor.getD 0) < 4294967296 →
      ∃ entries rdel cw,
        downgrade fbi w lx = .performed entries rdel cw ∧
        entries.map (fun e => e.name)
          = [LXATTRB, LXXATTR, LXUID, LXGID, LXMOD, LXDEV] ++
            w.lx_dot_ea.map LxDotAttr.name_ea ∧
        (∀ e ∈ entries.drop 2, e.value = []) ∧
        (∃ r, decodeLxattrb (entries.headD ⟨0, [], []⟩).value = some r ∧
          r.st_uid = w.get_uid.getD 0 ∧ r.st_gid = w.get_gid.getD 0 ∧
          r.st_mode = w.get_mode.getD 0 ∧
          r.st_rdev = make_dev (w.get_dev_major.getD 0) (w.get_dev_minor.getD 0)) ∧
        (w.lx_dot_ea ≠ [] →
          parse_lxxattr (entries.getD 1 ⟨0, [], []⟩).value
            = some (w.lx_dot_ea.map (fun a =>
                ({ name := .borrowed ((a.name_ea.drop 3).map toAsciiLower)
                   value := some (.borrowed (a.value.get.drop 4)) } :
                  LxxattrEntry)))) ∧
        (w.lx_dot_ea = [] → (entries.getD 1 ⟨0, [], []⟩).value = []) := by
  intro fbi w lx _ hlx hwfattr huid hgid hmode hdev
  have hpairs : lxxattrPairs w.lx_dot_ea = some (w.lx_dot_ea.map (fun a =>
      ((a.name_ea.drop 3).map toAsciiLower, a.value.get.drop 4))) :=
    lxxattrPairs_eq _ (fun a ha => ⟨(hwfattr a ha).1, (hwfattr a ha).2.1⟩)
  have hdg : downgrade fbi w lx = .performed
      ([⟨0, LXATTRB, ({ EaLxattrbV1.new fbi with
          st_uid := w.get_uid.getD 0
          st_gid := w.get_gid.getD 0
          st_mode := w.get_mode.getD 0
          st_rdev := make_dev (w.get_dev_major.getD 0)
            (w.get_dev_minor.getD 0) } : EaLxattrbV1).bytes⟩,
        ⟨0, LXXATTR, encodeLxxattr
          (w.lx_dot_ea.map (fun a =>
            ((a.name_ea.drop 3).map toAsciiLower, a.value.get.drop 4)))⟩] ++
        ([LXUID, LXGID, LXMOD, LXDEV] ++ w.lx_dot_ea.map LxDotAttr.name_ea).map
          (fun n => (⟨0, n, []⟩ : EaEntry)))
      (match w.reparse_tag with
        | some t => if t ≠ .UNKNOWN then some t.tag_id else none
        | none => none)
      w.symlink := by
    unfold downgrade
    rw [if_neg (by simp [hlx]), hpairs]
  refine ⟨_, _, _, hdg, ?_, ?_, ?_, ?_, ?_⟩
  · simp only [List.map_append, List.map_map, List.map_cons, List.map_nil,
      List.cons_append, List.nil_append, Function.comp]
    have hcomp : ((fun (e : EaEntry) => e.name) ∘
        (fun n => ({ flags := 0, name := n, value := [] } : EaEntry)) ∘
        LxDotAttr.name_ea) = LxDotAttr.name_ea := rfl
    rw [hcomp]
  · intro e he
    simp only [List.cons_append, List.nil_append, List.drop_succ_cons,
      List.drop_zero, List.mem_map] at he
    obtain ⟨n, _, rfl⟩ := he
    rfl
  · refine ⟨({ EaLxattrbV1.new fbi with
        st_uid := w.get_uid.getD 0
        st_gid := w.get_gid.getD 0
        st_mode := w.get_mode.getD 0
        st_rdev := make_dev (w.get_dev_major.getD 0)
          (w.get_dev_minor.getD 0) } : EaLxattrbV1).norm, ?_, ?_, ?_, ?_, ?_⟩
    · show decodeLxattrb
        ({ EaLxattrbV1.new fbi with
            st_uid := w.get_uid.getD 0
            st_gid := w.get_gid.getD 0
            st_mode := w.get_mode.getD 0
            st_rdev := make_dev (w.get_dev_major.getD 0)
              (w.get_dev_minor.getD 0) } : EaLxattrbV1).bytes = _
      have h := decodeLxattrb_bytes
        ({ EaLxattrbV1.new fbi with
            st_uid := w.get_uid.getD 0
            st_gid := w.get_gid.getD 0
            st_mode := w.get_mode.getD 0
            st_rdev := make_dev (w.get_dev_major.getD 0)
              (w.get_dev_minor.getD 0) } : EaLxattrbV1) []
      rw [List.append_nil] at h
      exact h
    · show (w.get_uid.getD 0) % 4294967296 = w.get_uid.getD 0
      exact Nat.mod_eq_of_lt huid
    · show (w.get_gid.getD 0) % 4294967296 = w.get_gid.getD 0
      exact Nat.mod_eq_of_lt hgid
    · show (w.get_mode.getD 0) % 4294967296 = w.get_mode.getD 0
      exact Nat.mod_eq_of_lt hmode
    · show (make_dev (w.get_dev_major.getD 0) (w.get_dev_minor.getD 0)) % 4294967296
        = make_dev (w.get_dev_major.getD 0) (w.get_dev_minor.getD 0)
      exact Nat.mod_eq_of_lt hdev
  · intro hne
    obtain ⟨a, rest, hrw⟩ : ∃ a rest, w.lx_dot_ea = a :: rest := by
      cases hx : w.lx_dot_ea with
      | nil => exact absurd hx hne
      | cons a rest => exact ⟨a, rest, rfl⟩
    have hget : (([(⟨0, LXATTRB, ({ EaLxattrbV1.new fbi with
          st_uid := w.get_uid.getD 0
          st_gid := w.get_gid.getD 0
          st_mode := w.get_mode.getD 0
          st_rdev := make_dev (w.get_dev_major.getD 0)
            (w.get_dev_minor.getD 0) } : EaLxattrbV1).bytes⟩ : EaEntry),
        ⟨0, LXXATTR, encodeLxxattr
          (w.lx_dot_ea.map (fun a =>
            ((a.name_ea.drop 3).map toAsciiLower, a.value.get.drop 4)))⟩] ++
        ([LXUID, LXGID, LXMOD, LXDEV] ++ w.lx_dot_ea.map LxDotAttr.name_ea).map
          (fun n => (⟨0, n, []⟩ : EaEntry))).getD 1 ⟨0, [], []⟩).value
        = encodeLxxattr
          (w.lx_dot_ea.map (fun a =>
            ((a.name_ea.drop 3).map toAsciiLower, a.value.get.drop 4))) := rfl
    rw [hget, hrw]
    simp only [List.map_cons]
    have hparse := parse_lxxattr_encodeLxxattr
      ((a.name_ea.drop 3).map toAsciiLower, a.value.get.drop 4)
      (rest.map (fun x =>
        ((x.name_ea.drop 3).map toAsciiLower, x.value.get.drop 4)))
      (by
        intro q hq
        simp only [List.mem_cons, List.mem_map] at hq
        rcases hq with rfl | ⟨x, hx, rfl⟩
        · exact (hwfattr a (by rw [hrw]; simp)).2.2
        · exact (hwfattr x (by rw [hrw]; simp [hx])).2.2)
    rw [hparse]
    simp [List.map_map, Function.comp]
  · intro hnil
    rw [hnil]
    rfl

/-- The Scattered file of the spec's migration-fidelity example: uid 1000,
gid 100, mode 0o100755, dev 0/0, and `LX.USER.TEST` = `hello` (names are
stored upper-cased on disk). -/
def c1_input : WslfsParsed :=
  ⟨some (.owned 1000), some (.owned 100), some (.owned 33261),
    some (.owned ⟨0, 0⟩),
    [⟨0, .owned [76, 88, 46, 85, 83, 69, 82, 46, 84, 69, 83, 84],
      .owned [108, 120, 101, 97, 104, 101, 108, 108, 111]⟩],
    none, none⟩

/-- Witness for C1 at the spec's fidelity example. -/
theorem C1_witness :
    ∃ entries rdel cw,
      downgrade none c1_input ⟨none, none, none, none⟩
        = .performed entries rdel cw ∧
      entries.map (fun e => e.name)
        = [LXATTRB, LXXATTR, LXUID, LXGID, LXMOD, LXDEV] ++
          c1_input.lx_dot_ea.map LxDotAttr.name_ea ∧
      (∀ e ∈ entries.drop 2, e.value = []) ∧
      (∃ r, decodeLxattrb (entries.headD ⟨0, [], []⟩).value = some r ∧
        r.st_uid = c1_input.get_uid.getD 0 ∧
        r.st_gid = c1_input.get_gid.getD 0 ∧
        r.st_mode = c1_input.get_mode.getD 0 ∧
        r.st_rdev = make_dev (c1_input.get_dev_major.getD 0)
          (c1_input.get_dev_minor.getD 0)) ∧
      (c1_input.lx_dot_ea ≠ [] →
        parse_lxxattr (entries.getD 1 ⟨0, [], []⟩).value
          = some (c1_input.lx_dot_ea.map (fun a =>
              ({ name := .borrowed ((a.name_ea.drop 3).map toAsciiLower)
                 value := some (.borrowed (a.value.get.drop 4)) } :
                LxxattrEntry)))) ∧
      (c1_input.lx_dot_ea = [] → (entries.getD 1 ⟨0, [], []⟩).value = []) :=
  C1_downgrade_write none c1_input ⟨none, none, none, none⟩ (by decide) (by decide)
    (by decide) (by decide) (by decide) (by decide) (by decide)

/-- Witness for C2 at a concrete one-entry buffer. -/
theorem C2_witness :
    parse_ea (encodeEa [{ flags := 0, name := [65], value := [2, 3] }])
      = some ([({ flags := 0, name := [65], value := [2, 3] } : EaEntry)].map clearFlags) :=
  (C2_roundtrip [0, 0, 0, 0, 0, 1, 2, 0, 65, 0, 2, 3, 0, 0, 0, 0]
    [{ flags := 0, name := [65], value := [2, 3] }] (by decide) (by decide)).2.1

end Wslattr
